import Mathlib

/-
Verification of the medit health-consultation backend's symptom/disease
inference, suggestion aggregation, report synthesis and report-trigger
logic, shallowly embedded from `src/backend/app/ai_assistant.py` and
`src/backend/main.py`.

Modelling conventions:
* Python floats are modelled as exact rationals (`ℚ`); `round(x, 1)` is
  modelled by `pyRound1` (round half to even, Python's rounding mode).
* Python `set` objects have unspecified iteration order; the model fixes
  first-insertion order (`setInsert` / `setUnion`).  All verified
  properties about set-derived data are order-independent (membership,
  length, duplicate-freedom) except where a comment notes otherwise.
* Python `dict` preserves insertion order, which the association-list
  model (`bump` / `getCount`) mirrors exactly.
* `str.lower()` is modelled by ASCII lowercasing, which agrees with
  Python on every string occurring in the knowledge base (Korean text
  and digits are fixed points of both).
* Database rows are modelled by an in-memory list with a fresh-id
  counter; `datetime.now()` is passed in as an opaque string.
-/

namespace Medit

set_option maxRecDepth 100000

/- ### Knowledge base (ai_assistant.py lines 44-95) -/

/-- Source table `common_symptoms` (line 44). -/
def commonSymptoms : List String :=
  ["두통", "복통", "열", "기침", "어지러움", "피로", "메스꺼움", "설사",
   "근육통", "발열", "인후통", "콧물", "발진", "관절통"]

/-- Source table `symptom_disease_map` (line 50). -/
def symptomDiseaseMap : List (String × List String) :=
  [("두통", ["편두통", "긴장성 두통", "군발성 두통"]),
   ("복통", ["위염", "장염", "과민성 대장 증후군"]),
   ("열", ["감기", "독감", "코로나19"]),
   ("기침", ["감기", "기관지염", "코로나19"]),
   ("어지러움", ["빈혈", "현기증", "저혈압"]),
   ("피로", ["만성피로증후군", "빈혈", "갑상선 기능 저하증"]),
   ("메스꺼움", ["위염", "멀미", "편두통"]),
   ("설사", ["장염", "과민성 대장 증후군", "식중독"]),
   ("근육통", ["근육염", "독감", "섬유근육통"]),
   ("발열", ["감기", "독감", "폐렴"]),
   ("인후통", ["인두염", "편도염", "후두염"]),
   ("콧물", ["비염", "감기", "알레르기"]),
   ("발진", ["알레르기", "습진", "수두"]),
   ("관절통", ["관절염", "류마티스 관절염", "통풍"])]

/-- Source table `disease_suggestions` (line 76). -/
def diseaseSuggestionsKB : List (String × List String) :=
  [("편두통", ["충분한 수면 취하기", "스트레스 관리하기", "정기적인 운동하기"]),
   ("긴장성 두통", ["목과 어깨 스트레칭", "스트레스 관리", "따뜻한 목욕"]),
   ("위염", ["자극적인 음식 피하기", "작은 양 자주 먹기", "금주하기"]),
   ("장염", ["충분한 수분 섭취", "소화가 쉬운 음식 먹기", "휴식 취하기"]),
   ("감기", ["충분한 휴식", "수분 섭취", "비타민 C 섭취"]),
   ("독감", ["집에서 휴식", "해열제 복용 고려", "충분한 수분 섭취"]),
   ("빈혈", ["철분이 풍부한 음식 섭취", "비타민 C와 함께 철분 섭취", "과로 피하기"]),
   ("저혈압", ["천천히 일어나기", "작은 양 자주 먹기", "충분한 수분 섭취"]),
   ("알레르기", ["알레르기 유발 물질 피하기", "항히스타민제 고려", "의사와 상담"])]

/-- Source table `general_suggestions` (line 89). -/
def generalSuggestions : List String :=
  ["충분한 휴식과 수면을 취하세요",
   "물을 충분히 마시세요",
   "균형 잡힌 식단을 유지하세요",
   "규칙적인 운동을 하세요",
   "스트레스를 관리하세요"]

/- ### Generic helpers: Python set / dict / string operations -/

/-- Add an element to a Python-set modelled as a duplicate-free list
(first-insertion order). -/
def setInsert (l : List String) (x : String) : List String :=
  if l.contains x then l else l ++ [x]

/-- Model of `set.update`: insert each element of `xs`. -/
def setUnion (l : List String) (xs : List String) : List String :=
  xs.foldl setInsert l

/-- Model of `list(set(l))` with first-occurrence order. -/
def pyDedup (l : List String) : List String := setUnion [] l

/-- Dictionary lookup returning `[]` when the key is absent
(`dict.get(k, [])` on a list-valued dict). -/
def lookupList (m : List (String × List String)) (k : String) : List String :=
  match m.find? (fun p => p.1 == k) with
  | some p => p.2
  | none => []

/-- Model of `counts[d] = counts.get(d, 0) + k` on an insertion-ordered dict. -/
def bump (acc : List (String × Nat)) (d : String) (k : Nat) : List (String × Nat) :=
  if (acc.find? (fun p => p.1 == d)).isSome then
    acc.map (fun p => if p.1 == d then (p.1, p.2 + k) else p)
  else acc ++ [(d, k)]

/-- Model of `counts.get(d, dflt)`. -/
def getCount (acc : List (String × Nat)) (d : String) (dflt : Nat) : Nat :=
  match acc.find? (fun p => p.1 == d) with
  | some p => p.2
  | none => dflt

/-- Python substring containment `pat in text`. -/
def containsSub (text pat : String) : Bool :=
  text.data.tails.any (fun t => pat.data.isPrefixOf t)

/-- Model of `str.lower()` (ASCII; identity on the Korean knowledge-base strings,
matching Python). -/
def toLowerStr (s : String) : String := String.mk (s.data.map Char.toLower)

/-- Python `round(q * 10)` half-to-even, as an integer. -/
def roundHalfEven (q : ℚ) : ℤ :=
  if q - (⌊q⌋ : ℚ) < 1/2 then ⌊q⌋
  else if q - (⌊q⌋ : ℚ) > 1/2 then ⌊q⌋ + 1
  else if Even ⌊q⌋ then ⌊q⌋ else ⌊q⌋ + 1

/-- Python `round(q, 1)`. -/
def pyRound1 (q : ℚ) : ℚ := (roundHalfEven (q * 10) : ℚ) / 10

/- ### Derived knowledge tables (ai_assistant.py lines 67-73, 388-392) -/

/-- One step of building the reverse index `disease_symptoms`:
append `symptom` to the entry of `disease`, creating it if absent. -/
def addReverse (acc : List (String × List String)) (disease symptom : String) :
    List (String × List String) :=
  if (acc.find? (fun p => p.1 == disease)).isSome then
    acc.map (fun p => if p.1 == disease then (p.1, p.2 ++ [symptom]) else p)
  else acc ++ [(disease, [symptom])]

/-- Derived table `disease_symptoms`, built by inverting `symptom_disease_map`
(lines 67-73). -/
def diseaseSymptoms : List (String × List String) :=
  symptomDiseaseMap.foldl (fun acc p => p.2.foldl (fun a d => addReverse a d p.1) acc) []

/-- Derived set `all_diseases` (lines 390-392): every disease name occurring in the
map values, duplicate-free. -/
def allDiseases : List String :=
  symptomDiseaseMap.foldl (fun acc p => setUnion acc p.2) []

/- ### Local fallback analysis: extraction (lines 379-400) -/

/-- Symptom keywords literally contained in the lowered text
(lines 382-385). -/
def detectedSymptoms0 (lowerText : String) : List String :=
  commonSymptoms.filter (fun s => containsSub lowerText (toLowerStr s))

/-- Disease names literally contained in the lowered text
(lines 394-396). -/
def mentionedDiseasesOf (lowerText : String) : List String :=
  allDiseases.filter (fun d => containsSub lowerText (toLowerStr d))

/-- For every directly mentioned disease, back-fill the symptoms linked
to it (lines 397-400). -/
def backfillSymptoms (mentioned detected : List String) : List String :=
  mentioned.foldl
    (fun acc d =>
      symptomDiseaseMap.foldl (fun a p => if p.2.contains d then setInsert a p.1 else a) acc)
    detected

/-- The final detected-symptom set of the fallback analyzer. -/
def detectedSymptomsOf (lowerText : String) : List String :=
  backfillSymptoms (mentionedDiseasesOf lowerText) (detectedSymptoms0 lowerText)

/- ### Local fallback analysis: scorer (lines 410-453) -/

/-- Per-disease match counters accumulated from the detected symptoms
(lines 414-419). -/
def symptomCounts (detected : List String) : List (String × Nat) :=
  detected.foldl
    (fun acc s => (lookupList symptomDiseaseMap s).foldl (fun a d => bump a d 1) acc) []

/-- Candidate diseases contributed by the detected symptoms
(lines 414-416). -/
def possibleDiseases0 (detected : List String) : List String :=
  detected.foldl (fun acc s => setUnion acc (lookupList symptomDiseaseMap s)) []

/-- Candidate diseases including the directly mentioned ones (line 422). -/
def possibleDiseasesOf (detected mentioned : List String) : List String :=
  setUnion (possibleDiseases0 detected) mentioned

/-- Counters after the `+3` boost for directly mentioned diseases
(lines 423-425). -/
def diseaseCountsOf (detected mentioned : List String) : List (String × Nat) :=
  mentioned.foldl (fun acc d => bump acc d 3) (symptomCounts detected)

/-- The un-rounded probability of one candidate disease (lines 429-444). -/
def rawProbability (mentioned : List String) (counts : List (String × Nat)) (d : String) : ℚ :=
  if mentioned.contains d then
    min 95 (80 + ((getCount counts d 3 : ℚ) - 3) * 5)
  else
    let matched := getCount counts d 0
    let total := (lookupList diseaseSymptoms d).length
    if 0 < total then min 95 (max 50 ((matched : ℚ) / (total : ℚ) * 100))
    else 50

/-- Dictionary `disease_probabilities` (lines 428-446), an insertion-ordered dict
from disease name to rounded probability. -/
def probabilitiesOf (detected mentioned : List String) : List (String × ℚ) :=
  (possibleDiseasesOf detected mentioned).map
    (fun d => (d, pyRound1 (rawProbability mentioned (diseaseCountsOf detected mentioned) d)))

/-- Model of `disease_probabilities.get(d, dflt)`. -/
def probGet (probs : List (String × ℚ)) (d : String) (dflt : ℚ) : ℚ :=
  match probs.find? (fun p => p.1 == d) with
  | some p => p.2
  | none => dflt

/-- Stable insertion of `x` into a probability-descending list: `x` goes
after every element with probability `≥` its own. -/
def insertRanked (probs : List (String × ℚ)) (x : String) : List String → List String
  | [] => [x]
  | y :: ys =>
    if probGet probs y 0 < probGet probs x 0 then x :: y :: ys
    else y :: insertRanked probs x ys

/-- Model of `sorted(possible_diseases, key=probability, reverse=True)`
(lines 449-453): a stable descending sort. -/
def rankDiseases (probs : List (String × ℚ)) (l : List String) : List String :=
  l.foldl (fun acc x => insertRanked probs x acc) []

/-- The ranked candidate list produced from the lowered text.  The
source sorts a Python set, so the relative order of equal-probability
diseases is unspecified; this model fixes the candidates' first-insertion
order, and only order-independent facts (membership, per-disease
probabilities) transfer to the program. -/
def rankedDiseasesOf (lowerText : String) : List String :=
  rankDiseases
    (probabilitiesOf (detectedSymptomsOf lowerText) (mentionedDiseasesOf lowerText))
    (possibleDiseasesOf (detectedSymptomsOf lowerText) (mentionedDiseasesOf lowerText))

/- ### Local fallback analysis: suggestion aggregator (lines 455-463, 492-496) -/

/-- Suggestions collected from the top three ranked diseases
(lines 456-459). -/
def collectTop3 (ranked : List String) : List String :=
  (ranked.take 3).foldl
    (fun acc d =>
      match diseaseSuggestionsKB.find? (fun p => p.1 == d) with
      | some p => setUnion acc p.2
      | none => acc) []

/-- Backfill with the generic suggestions when fewer than five were
collected, then cap at five (lines 461-463, 495).  The source truncates
`list(collected_suggestions)` where `collected_suggestions` is an
unordered (hash-randomized) Python set; this model fixes first-insertion
order, so only content, duplicate-freedom and cardinality facts about the
result transfer to the program — which particular entries survive the
`[:5]` truncation is unspecified in the source. -/
def finalSuggestions (ranked : List String) : List String :=
  let collected := collectTop3 ranked
  let collected :=
    if collected.length < 5 then setUnion collected generalSuggestions else collected
  collected.take 5

/- ### Persisted Disease rows (app/models.py; find-or-create behaviour of
ai_assistant.py lines 323-344 and 470-483) -/

/-- A persisted `Disease` row; ids are modelled by a fresh counter. -/
structure DiseaseRow where
  id : Nat
  name : String
  description : String
deriving DecidableEq

/-- The Disease table plus its fresh-id counter. -/
structure DB where
  rows : List DiseaseRow
  nextId : Nat
deriving DecidableEq

/-- Model of the query `select(Disease).where(Disease.name == n)).first()`. -/
def findByName (db : DB) (n : String) : Option DiseaseRow :=
  db.rows.find? (fun r => r.name == n)

/-- The shared description template. -/
def descriptionFromSymptoms (name : String) (syms : List String) : String :=
  name ++ "는 일반적으로 " ++ String.intercalate ", " syms ++ " 등의 증상과 연관됩니다."

/-- Description synthesized in the delegated path (lines 330-336): up to
three related symptoms, or a placeholder when none are known. -/
def delegatedDescription (name : String) : String :=
  let related := (symptomDiseaseMap.filter (fun p => p.2.contains name)).map (fun p => p.1)
  descriptionFromSymptoms name (if related.isEmpty then ["다양한 증상"] else related.take 3)

/-- Description synthesized in the fallback path (line 479). -/
def fallbackDescription (name : String) : String :=
  descriptionFromSymptoms name ((lookupList diseaseSymptoms name).take 3)

/-- Look a disease up by name, creating a fresh row if absent. -/
def findOrCreate (db : DB) (name desc : String) : DiseaseRow × DB :=
  match findByName db name with
  | some r => (r, db)
  | none =>
    let r : DiseaseRow := ⟨db.nextId, name, desc⟩
    (r, ⟨db.rows ++ [r], db.nextId + 1⟩)

/- ### Analysis results and the two analysis strategies -/

/-- The shape both analysis paths return (a dict in the source):
`symptoms`, `diseases_with_probabilities` (id, name, probability) and
`suggestions`. -/
structure AnalysisResult where
  symptoms : List String
  diseases : List (Nat × String × ℚ)
  suggestions : List String
deriving DecidableEq

/-- Construction of `diseases_with_probabilities` in the fallback path (lines 466-490):
walk the ranked list, find or create each row, and emit
`(id, name, probability)` entries. -/
def buildEntries (probs : List (String × ℚ)) (ranked : List String)
    (st : List (Nat × String × ℚ) × DB) : List (Nat × String × ℚ) × DB :=
  ranked.foldl
    (fun st d =>
      let fc := findOrCreate st.2 d (fallbackDescription d)
      (st.1 ++ [(fc.1.id, d, probGet probs d 50)], fc.2))
    st

/-- Model of `fallback_analyze_conversation` (lines 375-496). -/
def fallbackAnalyze (text : String) (db : DB) : AnalysisResult × DB :=
  let lowerText := toLowerStr text
  let detected := detectedSymptomsOf lowerText
  let mentioned := mentionedDiseasesOf lowerText
  if detected.isEmpty && mentioned.isEmpty then
    (⟨[], [], generalSuggestions⟩, db)
  else
    let probs := probabilitiesOf detected mentioned
    let ranked := rankedDiseasesOf lowerText
    let step := buildEntries probs ranked ([], db)
    (⟨detected, step.1, finalSuggestions ranked⟩, step.2)

/-- The parsed response of the external text-analysis collaborator.
`none` components model missing JSON fields (`dict.get` defaults are
applied at the use sites, as in lines 313-321 and 355). -/
structure DelegatedPayload where
  symptoms : List String
  possibleDiseases : List (Option String × Option ℚ)
  healthSuggestions : List String
deriving DecidableEq

/-- Per-entry processing of `possible_diseases` in the delegated path
(lines 319-352): default the name to `""` and the probability to `50.0`,
look the row up, create it when absent and the name is non-empty, and
emit an output entry exactly when a row was found or created. -/
def processStep (st : List (Nat × String × ℚ) × DB) (e : Option String × Option ℚ) :
    List (Nat × String × ℚ) × DB :=
  let name := e.1.getD ""
  let prob := e.2.getD 50
  match findByName st.2 name with
  | some r => (st.1 ++ [(r.id, name, prob)], st.2)
  | none =>
    if name ≠ "" then
      let r : DiseaseRow := ⟨st.2.nextId, name, delegatedDescription name⟩
      (st.1 ++ [(r.id, name, prob)], ⟨st.2.rows ++ [r], st.2.nextId + 1⟩)
    else st

def processPossibleDiseases (entries : List (Option String × Option ℚ)) (db : DB) :
    List (Nat × String × ℚ) × DB :=
  entries.foldl processStep ([], db)

/-- Suggestion post-processing of the delegated path (lines 355-365):
backfill + dedup only when fewer than three suggestions came back. -/
def delegatedSuggestions (hs : List String) : List String :=
  let hs := if hs.length < 3 then (pyDedup (hs ++ generalSuggestions)).take 5 else hs
  hs.take 5

/-- The success branch of `analyze_conversation_for_diseases`
(lines 304-366). -/
def analyzeDelegated (p : DelegatedPayload) (db : DB) : AnalysisResult × DB :=
  let pd := processPossibleDiseases p.possibleDiseases db
  (⟨p.symptoms, pd.1, delegatedSuggestions p.healthSuggestions⟩, pd.2)

/- ### Orchestrator (`analyze_conversation_for_diseases`, lines 282-371) -/

/-- A stored conversation message. -/
structure Message where
  sender : String
  content : String

/-- Concatenation of the user-authored message bodies (lines 299-302). -/
def conversationText (msgs : List Message) : String :=
  msgs.foldl (fun acc m => if m.sender == "user" then acc ++ m.content ++ "\n" else acc) ""

/-- Model of `analyze_conversation_for_diseases`: empty conversations return the
generic result (lines 291-296); otherwise the delegated strategy is
attempted and any failure (modelled by `delegated = none`) falls back to
the local rule-based path (lines 368-371). -/
def analyzeConversation (msgs : List Message) (delegated : Option DelegatedPayload)
    (db : DB) : AnalysisResult × DB :=
  if msgs.isEmpty then (⟨[], [], generalSuggestions⟩, db)
  else
    match delegated with
    | some p => analyzeDelegated p db
    | none => fallbackAnalyze (conversationText msgs) db

/- ### Report synthesis: severity marker parsing (lines 614-621) -/

/-- Python's `\s` on the ASCII range (the knowledge-base texts and the
marker wire format contain no non-ASCII whitespace). -/
def isPySpace (c : Char) : Bool :=
  c == ' ' || c == '\t' || c == '\n' || c == '\r' || c == Char.ofNat 11 || c == Char.ofNat 12

/-- Case-insensitive literal match of `pat` at the head of the text,
returning the rest on success. -/
def dropPrefixCI : List Char → List Char → Option (List Char)
  | [], cs => some cs
  | _ :: _, [] => none
  | p :: ps, c :: cs => if p.toLower == c.toLower then dropPrefixCI ps cs else none

/-- Case-sensitive literal match of `pat` at the head of the text. -/
def dropPrefixExact : List Char → List Char → Option (List Char)
  | [], cs => some cs
  | _ :: _, [] => none
  | p :: ps, c :: cs => if p == c then dropPrefixExact ps cs else none

/-- The literal key of the severity marker. -/
def sevKey : List Char := "SEVERITY_LEVEL:".data

/-- The group `(red|orange|green)` of the search pattern, case-insensitive,
returning the canonical (lowercased) color.  The alternatives start with
distinct letters, so at most one can match. -/
def colorAt (cs : List Char) : Option String :=
  if (dropPrefixCI "red".data cs).isSome then some "red"
  else if (dropPrefixCI "orange".data cs).isSome then some "orange"
  else if (dropPrefixCI "green".data cs).isSome then some "green"
  else none

/-- One attempted match of `SEVERITY_LEVEL:\s*(red|orange|green)` with
`re.IGNORECASE` at the head of the text.  `\s*` is modelled by
`dropWhile`: the greedy star never needs to backtrack because the color
alternatives start with non-whitespace. -/
def severityAt (cs : List Char) : Option String :=
  match dropPrefixCI sevKey cs with
  | none => none
  | some rest => colorAt (rest.dropWhile isPySpace)

/-- Model of `re.search` (line 617): leftmost match wins. -/
def findSeverity : List Char → Option String
  | [] => none
  | c :: cs =>
    match severityAt (c :: cs) with
    | some s => some s
    | none => findSeverity cs

/-- The `(red|orange|green)` group of the *substitution* pattern
(line 621), which is case-sensitive. -/
def colorExactAt (cs : List Char) : Option (List Char) :=
  match dropPrefixExact "red".data cs with
  | some r => some r
  | none =>
    match dropPrefixExact "orange".data cs with
    | some r => some r
    | none => dropPrefixExact "green".data cs

/-- One attempted match of `SEVERITY_LEVEL:\s*(red|orange|green)\s*`
(case-sensitive) right after a newline, returning the text after the
match. -/
def stripMatchAfterNewline (cs : List Char) : Option (List Char) :=
  match dropPrefixExact sevKey cs with
  | none => none
  | some rest =>
    match colorExactAt (rest.dropWhile isPySpace) with
    | none => none
    | some r => some (r.dropWhile isPySpace)

/-- Model of `re.sub(r"\nSEVERITY_LEVEL:\s*(red|orange|green)\s*", "", report)`
(line 621): delete every non-overlapping leftmost match.  The fuel is
bounded by the text length; every step consumes at least one character,
so `stripSeverity` below never exhausts it. -/
def stripSeverityAux : Nat → List Char → List Char
  | 0, cs => cs
  | _ + 1, [] => []
  | fuel + 1, c :: cs =>
    if c == '\n' then
      match stripMatchAfterNewline cs with
      | some rest => stripSeverityAux fuel rest
      | none => c :: stripSeverityAux fuel cs
    else c :: stripSeverityAux fuel cs

def stripSeverity (cs : List Char) : List Char := stripSeverityAux cs.length cs

/-- Whether the case-insensitive pattern matches at the head of the text. -/
def hasPrefixCI (pat cs : List Char) : Bool := (dropPrefixCI pat cs).isSome

/-- Whether the case-insensitive pattern matches anywhere in the text. -/
def hasInfixCI (pat cs : List Char) : Bool := cs.tails.any (hasPrefixCI pat)

/- ### Report synthesis: pain override and the two strategies
(lines 513-709) -/

/-- The `pain_intensity` value of the upstream analysis payload:
`num q` when `float(...)` succeeds, `nonNumeric` when it raises. -/
inductive PainValue
  | num (q : ℚ)
  | nonNumeric
deriving DecidableEq

/-- The pain-intensity override (lines 623-635): applied only when the
field is present and numeric. -/
def applyPainOverride (pain : Option PainValue) (sev : String) : String :=
  match pain with
  | some (.num q) => if 7 ≤ q then "red" else if 4 ≤ q then "orange" else "green"
  | some .nonNumeric => sev
  | none => sev

/-- The analysis payload handed to report synthesis (`analysis_data`). -/
structure AnalysisData where
  symptoms : List String
  diseases : List (Nat × String × ℚ)
  suggestions : List String
  painIntensity : Option PainValue

/-- User profile fields used by the report templates; Python `None` is
modelled by `""` (both are falsy in the template conditionals). -/
structure UserProfile where
  nickname : String
  ageRange : String
  gender : String
  usualIllness : List String

/-- Render a probability for the fallback template.  (Python prints the
float's repr; the exact digit string is irrelevant to every claim.) -/
def probRepr (q : ℚ) : String := toString q

/-- Model of `fallback_generate_report` (lines 654-709), with `datetime.now()`
passed in as `now`. -/
def fallbackReportContent (user : UserProfile) (a : AnalysisData) (now : String) : String :=
  let userInfo :=
    "사용자: " ++ (if user.nickname ≠ "" then user.nickname else "이름 없음") ++ "\n"
      ++ "연령대: " ++ (if user.ageRange ≠ "" then user.ageRange else "정보 없음") ++ "\n"
      ++ "성별: " ++ (if user.gender ≠ "" then user.gender else "정보 없음") ++ "\n"
  let existingIllness :=
    if user.usualIllness.length > 0 then String.intercalate ", " user.usualIllness else "없음"
  let symptomSection :=
    "## 감지된 증상\n\n" ++ String.join (a.symptoms.map (fun s => "- " ++ s ++ "\n"))
  let diseaseAnalysis :=
    "## 분석된 가능성 있는 질환\n\n"
      ++ String.join (a.diseases.map (fun d => "- " ++ d.2.1 ++ " (" ++ probRepr d.2.2 ++ "%)\n"))
  let healthAdvice :=
    "## 건강 관리 조언\n\n"
      ++ String.join (a.suggestions.enum.map
          (fun p => toString (p.1 + 1) ++ ". " ++ p.2 ++ "\n"))
  "# 건강 분석 리포트\n\n## 사용자 정보\n" ++ userInfo
    ++ "\n평소 앓는 질환: " ++ existingIllness
    ++ "\n\n## 대화 내용 분석\n대화 내용을 바탕으로 분석한 결과입니다.\n\n"
    ++ symptomSection ++ "\n\n" ++ diseaseAnalysis ++ "\n\n" ++ healthAdvice
    ++ "\n\n*참고: 이 리포트는 자동으로 생성된 것으로, 정확한 진단을 위해서는 의사와 상담하시기 바랍니다.*\n\n생성 시간: "
    ++ now ++ "\n"

/-- The report synthesizer's output. -/
structure ReportResult where
  content : String
  severityLevel : String
deriving DecidableEq

/-- Model of `generate_conversation_report` (lines 513-650).  `narrative = some s`
models a successful delegated narrative-generation call returning `s`;
`none` models any exception, which takes the local-template branch
(lines 643-650).  In the delegated branch the marker is parsed
(lines 614-619), stripped only when the search matched (lines 620-621),
and the pain override runs afterwards (lines 623-635); in the exception
branch the severity is the literal `"green"` (line 649) — the override is
inside the `try` block and is never reached there. -/
def generateConversationReport (narrative : Option String) (a : AnalysisData)
    (user : UserProfile) (now : String) : ReportResult :=
  match narrative with
  | some rep =>
    let found := findSeverity rep.data
    let sev := found.getD "green"
    let rep := if found.isSome then String.mk (stripSeverity rep.data) else rep
    ⟨rep, applyPainOverride a.painIntensity sev⟩
  | none => ⟨fallbackReportContent user a now, "green"⟩

/- ### Report trigger (main.py lines 673-734) -/

/-- Computation of `next_sequence` (lines 673-682): one more than the highest stored
sequence (the query orders by sequence descending and takes the first
row), or `1` for the first message. -/
def nextSequence (priorSequences : List Nat) : Nat :=
  match priorSequences.max? with
  | none => 1
  | some s => s + 1

/-- Trigger flag `generate_report` (line 730): a report is generated when the request
carries `request_report` or the posted message's sequence plus one
equals 7. -/
def reportTriggered (requestReport : Option Unit) (priorSequences : List Nat) : Bool :=
  requestReport.isSome || (nextSequence priorSequences + 1 == 7)

/- ### Claim-side definitions (stated from the spec wording, for
refinement comparison only) -/

/-- Modelled from the claim wording of C2: the probability formula as the
spec states it, as a function of mention status, match count and the
disease's total knowledge-base symptom count. -/
def claimProbability (directlyMentioned : Bool) (matchCount totalSymptoms : Nat) : ℚ :=
  if directlyMentioned then
    pyRound1 (min 95 (80 + ((matchCount : ℚ) - 3) * 5))
  else if totalSymptoms = 0 then
    pyRound1 50
  else
    pyRound1 (min 95 (max 50 ((matchCount : ℚ) / (totalSymptoms : ℚ) * 100)))

/-- Modelled from the claim wording of C2: the match count of a disease
is the number of detected symptoms linked to it, plus 3 when directly
mentioned. -/
def claimMatchCount (detected mentioned : List String) (d : String) : Nat :=
  (detected.filter (fun s => (lookupList symptomDiseaseMap s).contains d)).length
    + (if mentioned.contains d then 3 else 0)

/-- The number of distinct knowledge-base symptoms linked to a disease. -/
def totalSymptomsFor (d : String) : Nat := (lookupList diseaseSymptoms d).length

/- ### Lemmas: the counter dictionary -/

theorem bump_key_eq (d : String) (k : Nat) (q : String × Nat) :
    ((if q.1 == d then (q.1, q.2 + k) else q).1 == d) = (q.1 == d) := by
  by_cases h : q.1 = d <;> simp [h]

theorem getCount_bump_self (acc : List (String × Nat)) (d : String) (k dflt : Nat) :
    getCount (bump acc d k) d dflt = getCount acc d 0 + k := by
  unfold bump getCount
  cases h : acc.find? (fun p => p.1 == d) with
  | none =>
    simp [h, List.find?_append]
  | some p =>
    have hp : (p.1 == d) = true := by simpa using List.find?_some h
    simp only [h, Option.isSome_some, if_true]
    rw [List.find?_map]
    have hfun : ((fun q : String × Nat => q.1 == d) ∘
        fun q : String × Nat => if q.1 == d then (q.1, q.2 + k) else q)
        = fun q : String × Nat => q.1 == d := by
      funext q
      exact bump_key_eq d k q
    rw [hfun, h]
    have hd : p.1 = d := by simpa using hp
    simp [hd]

theorem getCount_bump_other (acc : List (String × Nat)) (d e : String) (k dflt : Nat)
    (hne : e ≠ d) : getCount (bump acc d k) e dflt = getCount acc e dflt := by
  unfold bump getCount
  cases h : acc.find? (fun p => p.1 == d) with
  | none =>
    have hde : ((d : String) == e) = false := by
      simp only [beq_eq_false_iff_ne]
      exact fun hx => hne hx.symm
    simp [h, List.find?_append, hde]
  | some p =>
    simp only [h, Option.isSome_some, if_true]
    rw [List.find?_map]
    have hfun : ((fun q : String × Nat => q.1 == e) ∘
        fun q : String × Nat => if q.1 == d then (q.1, q.2 + k) else q)
        = fun q : String × Nat => q.1 == e := by
      funext q
      by_cases hq : q.1 = d <;> simp [hq]
    rw [hfun]
    cases hs : acc.find? (fun q => q.1 == e) with
    | none => rfl
    | some q =>
      have hq : q.1 = e := by simpa using List.find?_some hs
      have hqd : q.1 ≠ d := by
        rw [hq]
        exact hne
      simp [hqd]

theorem getCount_foldl_bump_not_mem (l : List String) (acc : List (String × Nat))
    (d : String) (k dflt : Nat) (hd : d ∉ l) :
    getCount (l.foldl (fun a x => bump a x k) acc) d dflt = getCount acc d dflt := by
  induction l generalizing acc with
  | nil => rfl
  | cons x xs ih =>
    have hx : d ≠ x := fun h => hd (h ▸ List.mem_cons_self x xs)
    have hxs : d ∉ xs := fun h => hd (List.mem_cons_of_mem x h)
    rw [List.foldl_cons, ih (bump acc x k) hxs, getCount_bump_other acc x d k dflt hx]

theorem getCount_foldl_bump_mem (l : List String) (acc : List (String × Nat))
    (d : String) (k dflt : Nat) (hnd : l.Nodup) (hd : d ∈ l) :
    getCount (l.foldl (fun a x => bump a x k) acc) d dflt = getCount acc d 0 + k := by
  induction l generalizing acc with
  | nil => cases hd
  | cons x xs ih =>
    rw [List.foldl_cons]
    rcases List.mem_cons.mp hd with h | h
    · subst h
      have hxs : d ∉ xs := (List.nodup_cons.mp hnd).1
      rw [getCount_foldl_bump_not_mem xs (bump acc d k) d k dflt hxs,
        getCount_bump_self]
    · have hx : d ≠ x := by
        intro he
        subst he
        exact (List.nodup_cons.mp hnd).1 h
      rw [ih (bump acc x k) (List.nodup_cons.mp hnd).2 h,
        getCount_bump_other acc x d k 0 hx]

theorem getCount_foldl_bump1_count (lst : List String) (acc : List (String × Nat))
    (d : String) :
    getCount (lst.foldl (fun a x => bump a x 1) acc) d 0
      = getCount acc d 0 + lst.count d := by
  induction lst generalizing acc with
  | nil => simp
  | cons x xs ih =>
    rw [List.foldl_cons, ih (bump acc x 1)]
    by_cases hx : x = d
    · subst hx
      rw [getCount_bump_self]
      simp [List.count_cons]
      omega
    · rw [getCount_bump_other acc x d 1 0 (fun h => hx h.symm)]
      simp [List.count_cons, hx]

theorem symptomCounts_get (detected : List String) (d : String) :
    getCount (symptomCounts detected) d 0
      = (detected.map (fun s => (lookupList symptomDiseaseMap s).count d)).sum := by
  unfold symptomCounts
  have haux : ∀ (l : List String) (acc : List (String × Nat)),
      getCount (l.foldl
        (fun acc s => (lookupList symptomDiseaseMap s).foldl (fun a x => bump a x 1) acc) acc) d 0
        = getCount acc d 0 + (l.map (fun s => (lookupList symptomDiseaseMap s).count d)).sum := by
    intro l
    induction l with
    | nil => simp
    | cons s ss ih =>
      intro acc
      rw [List.foldl_cons, ih, getCount_foldl_bump1_count]
      simp [Nat.add_assoc]
  rw [haux detected []]
  simp [getCount]

/- ### Lemmas: set-as-list operations -/

theorem mem_setInsert (l : List String) (x y : String) :
    y ∈ setInsert l x ↔ y ∈ l ∨ y = x := by
  unfold setInsert
  by_cases h : l.contains x = true
  · rw [if_pos h]
    have hx : x ∈ l := by simpa using h
    constructor
    · exact Or.inl
    · rintro (hy | rfl)
      · exact hy
      · exact hx
  · rw [if_neg h]
    simp [List.mem_append]

theorem setInsert_nodup (l : List String) (x : String) (h : l.Nodup) :
    (setInsert l x).Nodup := by
  unfold setInsert
  by_cases hc : l.contains x = true
  · rwa [if_pos hc]
  · rw [if_neg hc]
    have hx : x ∉ l := by simpa using hc
    simp [List.nodup_append, h, hx]

theorem mem_setUnion (l xs : List String) (y : String) :
    y ∈ setUnion l xs ↔ y ∈ l ∨ y ∈ xs := by
  unfold setUnion
  induction xs generalizing l with
  | nil => simp
  | cons x rest ih =>
    rw [List.foldl_cons, ih (setInsert l x), mem_setInsert]
    simp only [List.mem_cons]
    tauto

theorem setUnion_nodup (l xs : List String) (h : l.Nodup) : (setUnion l xs).Nodup := by
  unfold setUnion
  induction xs generalizing l with
  | nil => exact h
  | cons x rest ih => exact ih (setInsert l x) (setInsert_nodup l x h)

theorem setUnion_append (l xs : List String) : ∃ t, setUnion l xs = l ++ t := by
  unfold setUnion
  induction xs generalizing l with
  | nil => exact ⟨[], by simp⟩
  | cons x rest ih =>
    rw [List.foldl_cons]
    by_cases hc : l.contains x = true
    · have hx : setInsert l x = l := by
        unfold setInsert
        rw [if_pos hc]
      obtain ⟨t, ht⟩ := ih l
      exact ⟨t, by rw [hx]; exact ht⟩
    · have hx : setInsert l x = l ++ [x] := by
        unfold setInsert
        rw [if_neg hc]
      obtain ⟨t, ht⟩ := ih (l ++ [x])
      refine ⟨x :: t, ?_⟩
      rw [hx, ht, List.append_assoc]
      rfl

/- ### Lemmas: the stable ranking -/

theorem insertRanked_perm (probs : List (String × ℚ)) (x : String) (l : List String) :
    (insertRanked probs x l).Perm (x :: l) := by
  induction l with
  | nil => exact List.Perm.refl _
  | cons y ys ih =>
    unfold insertRanked
    by_cases h : probGet probs y 0 < probGet probs x 0
    · rw [if_pos h]
    · rw [if_neg h]
      exact (List.Perm.cons y ih).trans (List.Perm.swap x y ys)

theorem rankDiseases_perm (probs : List (String × ℚ)) (l : List String) :
    (rankDiseases probs l).Perm l := by
  have haux : ∀ (l acc : List String),
      (l.foldl (fun acc x => insertRanked probs x acc) acc).Perm (acc ++ l) := by
    intro l
    induction l with
    | nil => simp
    | cons x rest ih =>
      intro acc
      rw [List.foldl_cons]
      exact (ih (insertRanked probs x acc)).trans
        (((insertRanked_perm probs x acc).append_right rest).trans List.perm_middle.symm)
  simpa [rankDiseases] using haux l []

theorem mem_rankDiseases (probs : List (String × ℚ)) (l : List String) (d : String) :
    d ∈ rankDiseases probs l ↔ d ∈ l :=
  (rankDiseases_perm probs l).mem_iff

/- ### Lemmas: the probability dictionary -/

theorem probGet_map (f : String → ℚ) (l : List String) (d : String) (dflt : ℚ)
    (hd : d ∈ l) : probGet (l.map (fun x => (x, f x))) d dflt = f d := by
  induction l with
  | nil => cases hd
  | cons x xs ih =>
    unfold probGet
    by_cases hx : x = d
    · subst hx
      rw [List.map_cons, List.find?_cons_of_pos _ (by simp)]
    · rw [List.map_cons, List.find?_cons_of_neg _ (by simp [hx])]
      have hmem : d ∈ xs := by
        rcases List.mem_cons.mp hd with h | h
        · exact absurd h.symm hx
        · exact h
      exact ih hmem

/- ### Lemmas: fallback disease entries -/

theorem buildEntries_append (probs : List (String × ℚ)) (ranked : List String)
    (st : List (Nat × String × ℚ) × DB) :
    ∃ t, (buildEntries probs ranked st).1 = st.1 ++ t := by
  unfold buildEntries
  induction ranked generalizing st with
  | nil => exact ⟨[], (List.append_nil _).symm⟩
  | cons d ds ih =>
    rw [List.foldl_cons]
    obtain ⟨t, ht⟩ := ih
      (st.1 ++ [((findOrCreate st.2 d (fallbackDescription d)).1.id, d, probGet probs d 50)],
       (findOrCreate st.2 d (fallbackDescription d)).2)
    exact ⟨_ :: t, by rw [ht, List.append_assoc]; rfl⟩

theorem buildEntries_mem (probs : List (String × ℚ)) (ranked : List String)
    (st : List (Nat × String × ℚ) × DB) (e : Nat × String × ℚ)
    (he : e ∈ (buildEntries probs ranked st).1) :
    e ∈ st.1 ∨ ∃ d ∈ ranked, e.2.1 = d ∧ e.2.2 = probGet probs d 50 := by
  unfold buildEntries at he
  induction ranked generalizing st with
  | nil => exact Or.inl he
  | cons d ds ih =>
    rw [List.foldl_cons] at he
    rcases ih _ he with hin | ⟨d', hd', he1, he2⟩
    · rcases List.mem_append.mp hin with h | h
      · exact Or.inl h
      · rcases List.mem_singleton.mp h with rfl
        exact Or.inr ⟨d, List.mem_cons_self d ds, rfl, rfl⟩
    · exact Or.inr ⟨d', List.mem_cons_of_mem d hd', he1, he2⟩

theorem buildEntries_exists (probs : List (String × ℚ)) (ranked : List String)
    (st : List (Nat × String × ℚ) × DB) (d : String) (hd : d ∈ ranked) :
    ∃ n, (n, d, probGet probs d 50) ∈ (buildEntries probs ranked st).1 := by
  unfold buildEntries
  induction ranked generalizing st with
  | nil => cases hd
  | cons x xs ih =>
    rw [List.foldl_cons]
    rcases List.mem_cons.mp hd with rfl | h
    · obtain ⟨t, ht⟩ := buildEntries_append probs xs
        (st.1 ++ [((findOrCreate st.2 d (fallbackDescription d)).1.id, d, probGet probs d 50)],
         (findOrCreate st.2 d (fallbackDescription d)).2)
      refine ⟨(findOrCreate st.2 d (fallbackDescription d)).1.id, ?_⟩
      unfold buildEntries at ht
      rw [ht]
      exact List.mem_append_left _ (List.mem_append_right _ (List.mem_singleton_self _))
    · exact ih _ h

/- ### Lemmas: rounding bounds -/

theorem roundHalfEven_le (q : ℚ) (n : ℤ) (h : q ≤ (n : ℚ)) : roundHalfEven q ≤ n := by
  unfold roundHalfEven
  have hfl : ⌊q⌋ ≤ n := by
    calc ⌊q⌋ ≤ ⌊(n : ℚ)⌋ := Int.floor_le_floor h
      _ = n := Int.floor_intCast n
  split_ifs with h1 h2 h3
  · exact hfl
  · have hlt : (⌊q⌋ : ℚ) < q := by linarith
    have : ⌊q⌋ < n := by
      have : (⌊q⌋ : ℚ) < (n : ℚ) := lt_of_lt_of_le hlt h
      exact_mod_cast this
    omega
  · exact hfl
  · have hmid : q - (⌊q⌋ : ℚ) = 1/2 := le_antisymm (not_lt.mp h2) (not_lt.mp h1)
    have hlt : (⌊q⌋ : ℚ) < q := by linarith
    have : ⌊q⌋ < n := by
      have : (⌊q⌋ : ℚ) < (n : ℚ) := lt_of_lt_of_le hlt h
      exact_mod_cast this
    omega

theorem le_roundHalfEven (q : ℚ) (n : ℤ) (h : (n : ℚ) ≤ q) : n ≤ roundHalfEven q := by
  unfold roundHalfEven
  have hfl : n ≤ ⌊q⌋ := by
    calc n = ⌊(n : ℚ)⌋ := (Int.floor_intCast n).symm
      _ ≤ ⌊q⌋ := Int.floor_le_floor h
  split_ifs <;> omega

theorem pyRound1_le (q : ℚ) (n : ℤ) (h : q ≤ (n : ℚ)) : pyRound1 q ≤ (n : ℚ) := by
  unfold pyRound1
  have h10 : q * 10 ≤ ((10 * n : ℤ) : ℚ) := by push_cast; linarith
  have hr := roundHalfEven_le (q * 10) (10 * n) h10
  have hq : (roundHalfEven (q * 10) : ℚ) ≤ ((10 * n : ℤ) : ℚ) := by exact_mod_cast hr
  push_cast at hq
  linarith

theorem le_pyRound1 (q : ℚ) (n : ℤ) (h : (n : ℚ) ≤ q) : (n : ℚ) ≤ pyRound1 q := by
  unfold pyRound1
  have h10 : ((10 * n : ℤ) : ℚ) ≤ q * 10 := by push_cast; linarith
  have hr := le_roundHalfEven (q * 10) (10 * n) h10
  have hq : ((10 * n : ℤ) : ℚ) ≤ (roundHalfEven (q * 10) : ℚ) := by exact_mod_cast hr
  push_cast at hq
  linarith

/- ### Knowledge-base facts -/

set_option maxRecDepth 8000 in
theorem kb_values_nodup : ∀ p ∈ symptomDiseaseMap, p.2.Nodup := by decide

set_option maxRecDepth 8000 in
theorem commonSymptoms_nodup : commonSymptoms.Nodup := by decide

set_option maxRecDepth 100000 in
theorem allDiseases_nodup : allDiseases.Nodup := by decide

set_option maxRecDepth 8000 in
theorem generalSuggestions_nodup : generalSuggestions.Nodup := by decide

theorem lookupList_nodup (s : String) : (lookupList symptomDiseaseMap s).Nodup := by
  unfold lookupList
  cases h : symptomDiseaseMap.find? (fun p => p.1 == s) with
  | none => exact List.nodup_nil
  | some p => exact kb_values_nodup p (List.mem_of_find?_eq_some h)

/- ### Lemmas: duplicate-freedom of the extraction stage -/

theorem detectedSymptoms0_nodup (lt : String) : (detectedSymptoms0 lt).Nodup :=
  commonSymptoms_nodup.filter _

theorem mentionedDiseasesOf_nodup (lt : String) : (mentionedDiseasesOf lt).Nodup :=
  allDiseases_nodup.filter _

theorem backfillSymptoms_nodup (mentioned detected : List String)
    (h : detected.Nodup) : (backfillSymptoms mentioned detected).Nodup := by
  unfold backfillSymptoms
  induction mentioned generalizing detected with
  | nil => exact h
  | cons m ms ih =>
    rw [List.foldl_cons]
    apply ih
    have hinner : ∀ (kb : List (String × List String)) (a : List String), a.Nodup →
        (kb.foldl (fun a p => if p.2.contains m then setInsert a p.1 else a) a).Nodup := by
      intro kb
      induction kb with
      | nil => exact fun a ha => ha
      | cons p ps ihk =>
        intro a ha
        rw [List.foldl_cons]
        apply ihk
        by_cases hc : p.2.contains m = true
        · rw [if_pos hc]
          exact setInsert_nodup a p.1 ha
        · rw [if_neg hc]
          exact ha
    exact hinner symptomDiseaseMap detected h

theorem detectedSymptomsOf_nodup (lt : String) : (detectedSymptomsOf lt).Nodup :=
  backfillSymptoms_nodup _ _ (detectedSymptoms0_nodup lt)

theorem possibleDiseases0_nodup (detected : List String) :
    (possibleDiseases0 detected).Nodup := by
  unfold possibleDiseases0
  have haux : ∀ (l : List String) (acc : List String), acc.Nodup →
      (l.foldl (fun acc s => setUnion acc (lookupList symptomDiseaseMap s)) acc).Nodup := by
    intro l
    induction l with
    | nil => exact fun acc h => h
    | cons s ss ih =>
      intro acc h
      rw [List.foldl_cons]
      exact ih _ (setUnion_nodup _ _ h)
  exact haux detected [] List.nodup_nil

theorem possibleDiseasesOf_nodup (detected mentioned : List String) :
    (possibleDiseasesOf detected mentioned).Nodup :=
  setUnion_nodup _ _ (possibleDiseases0_nodup detected)

/- ### Lemmas: the scorer -/

theorem nodup_count (l : List String) (hl : l.Nodup) (a : String) :
    l.count a = if a ∈ l then 1 else 0 := by
  by_cases h : a ∈ l
  · rw [if_pos h]
    exact List.count_eq_one_of_mem hl h
  · rw [if_neg h]
    exact List.count_eq_zero_of_not_mem h

theorem sum_count_eq_filter_length (detected : List String) (d : String) :
    (detected.map (fun s => (lookupList symptomDiseaseMap s).count d)).sum
      = (detected.filter (fun s => (lookupList symptomDiseaseMap s).contains d)).length := by
  induction detected with
  | nil => rfl
  | cons s ss ih =>
    rw [List.map_cons, List.sum_cons, ih]
    rw [nodup_count _ (lookupList_nodup s) d]
    by_cases h : d ∈ lookupList symptomDiseaseMap s
    · rw [if_pos h]
      have hstep : List.filter (fun s => (lookupList symptomDiseaseMap s).contains d) (s :: ss)
          = s :: List.filter (fun s => (lookupList symptomDiseaseMap s).contains d) ss := by
        have hc : (lookupList symptomDiseaseMap s).contains d = true := by simpa using h
        simp [List.filter_cons, hc, h]
      rw [hstep, List.length_cons]
      omega
    · rw [if_neg h]
      have hstep : List.filter (fun s => (lookupList symptomDiseaseMap s).contains d) (s :: ss)
          = List.filter (fun s => (lookupList symptomDiseaseMap s).contains d) ss := by
        have hc : (lookupList symptomDiseaseMap s).contains d = false := by simpa using h
        simp [List.filter_cons, hc, h]
      rw [hstep]
      omega

theorem symptomCounts_get_filter (detected : List String) (d : String) :
    getCount (symptomCounts detected) d 0
      = (detected.filter (fun s => (lookupList symptomDiseaseMap s).contains d)).length := by
  rw [symptomCounts_get, sum_count_eq_filter_length]

/-- The central scorer lemma: for every candidate disease the probability
dictionary holds exactly the claim's formula. -/
theorem scorerProbability_eq (detected mentioned : List String) (d : String)
    (hm : mentioned.Nodup) (hd : d ∈ possibleDiseasesOf detected mentioned) :
    probGet (probabilitiesOf detected mentioned) d 50
      = claimProbability (mentioned.contains d)
          (claimMatchCount detected mentioned d) (totalSymptomsFor d) := by
  unfold probabilitiesOf
  rw [probGet_map _ _ _ _ hd]
  by_cases hmen : d ∈ mentioned
  · have hcon : mentioned.contains d = true := by simpa using hmen
    unfold rawProbability claimProbability claimMatchCount diseaseCountsOf
    rw [getCount_foldl_bump_mem mentioned (symptomCounts detected) d 3 3 hm hmen,
      symptomCounts_get_filter]
    simp [hcon, hmen]
  · have hcon : mentioned.contains d = false := by simpa using hmen
    unfold rawProbability claimProbability claimMatchCount diseaseCountsOf
    rw [getCount_foldl_bump_not_mem mentioned (symptomCounts detected) d 3 0 hmen,
      symptomCounts_get_filter]
    unfold totalSymptomsFor
    by_cases ht : (lookupList diseaseSymptoms d).length = 0
    · simp [hcon, hmen, ht]
    · simp [hcon, hmen, ht, Nat.pos_of_ne_zero ht]

/-- Bounds on the probability of every candidate disease. -/
theorem scorerProbability_bounds (detected mentioned : List String) (d : String)
    (hm : mentioned.Nodup) (hd : d ∈ possibleDiseasesOf detected mentioned) :
    (d ∈ mentioned →
        (80 : ℚ) ≤ probGet (probabilitiesOf detected mentioned) d 50
          ∧ probGet (probabilitiesOf detected mentioned) d 50 ≤ 95)
      ∧ (d ∉ mentioned →
        (50 : ℚ) ≤ probGet (probabilitiesOf detected mentioned) d 50
          ∧ probGet (probabilitiesOf detected mentioned) d 50 ≤ 95) := by
  unfold probabilitiesOf
  rw [probGet_map _ _ _ _ hd]
  constructor
  · intro hmen
    have hcon : mentioned.contains d = true := by simpa using hmen
    unfold rawProbability
    rw [hcon, if_pos rfl]
    unfold diseaseCountsOf
    rw [getCount_foldl_bump_mem mentioned (symptomCounts detected) d 3 3 hm hmen]
    set c : Nat := getCount (symptomCounts detected) d 0 with hc
    have hlow : ((80 : ℤ) : ℚ) ≤ min 95 (80 + (((c + 3 : Nat) : ℚ) - 3) * 5) := by
      push_cast
      apply le_min (by norm_num)
      have hc0 : (0 : ℚ) ≤ (c : ℚ) := by positivity
      linarith
    have hhigh : min 95 (80 + (((c + 3 : Nat) : ℚ) - 3) * 5) ≤ ((95 : ℤ) : ℚ) := by
      have hmin := min_le_left (95 : ℚ) (80 + (((c + 3 : Nat) : ℚ) - 3) * 5)
      push_cast
      push_cast at hmin
      linarith
    constructor
    · have h1 := le_pyRound1 _ 80 hlow
      have he : ((80 : ℤ) : ℚ) = (80 : ℚ) := by norm_num
      rwa [he] at h1
    · have h2 := pyRound1_le _ 95 hhigh
      have he : ((95 : ℤ) : ℚ) = (95 : ℚ) := by norm_num
      rwa [he] at h2
  · intro hmen
    have hcon : mentioned.contains d = false := by simpa using hmen
    unfold rawProbability
    rw [hcon]
    simp only [Bool.false_eq_true, if_false]
    by_cases ht : 0 < (lookupList diseaseSymptoms d).length
    · rw [if_pos ht]
      set x : ℚ := (((getCount (diseaseCountsOf detected mentioned) d 0 : Nat) : ℚ)
        / ((lookupList diseaseSymptoms d).length : ℚ)) * 100 with hx
      have hlow : ((50 : ℤ) : ℚ) ≤ min 95 (max 50 x) :=
        le_trans (by norm_num) (le_min (by norm_num) (le_max_left _ _))
      have hhigh : min 95 (max 50 x) ≤ ((95 : ℤ) : ℚ) :=
        le_trans (min_le_left _ _) (by norm_num)
      constructor
      · have h1 := le_pyRound1 _ 50 hlow
        have he : ((50 : ℤ) : ℚ) = (50 : ℚ) := by norm_num
        rwa [he] at h1
      · have h2 := pyRound1_le _ 95 hhigh
        have he : ((95 : ℤ) : ℚ) = (95 : ℚ) := by norm_num
        rwa [he] at h2
    · rw [if_neg ht]
      constructor
      · have h1 := le_pyRound1 (50 : ℚ) 50 (by norm_num)
        have he : ((50 : ℤ) : ℚ) = (50 : ℚ) := by norm_num
        rwa [he] at h1
      · have h2 := pyRound1_le (50 : ℚ) 95 (by norm_num)
        have he : ((95 : ℤ) : ℚ) = (95 : ℚ) := by norm_num
        rwa [he] at h2

/- ### Lemmas: severity marker parsing -/

theorem dropPrefixCI_append (pat kv r : List Char)
    (hkv : kv.map Char.toLower = pat.map Char.toLower) :
    dropPrefixCI pat (kv ++ r) = some r := by
  induction pat generalizing kv with
  | nil =>
    have : kv = [] := by simpa using hkv
    subst this
    rfl
  | cons p ps ih =>
    cases kv with
    | nil => simp at hkv
    | cons c cs =>
      simp only [List.map_cons, List.cons.injEq] at hkv
      simp only [List.cons_append, dropPrefixCI]
      rw [if_pos (by simp [hkv.1])]
      exact ih cs hkv.2

theorem dropPrefixCI_cons_ne (p c : Char) (ps cs : List Char)
    (h : p.toLower ≠ c.toLower) : dropPrefixCI (p :: ps) (c :: cs) = none := by
  simp only [dropPrefixCI]
  rw [if_neg]
  simpa using h

theorem dropPrefixCI_stop (pat : List Char) (stop : Char)
    (hstop : ∀ k ∈ pat, k.toLower ≠ stop.toLower) :
    ∀ xs ys : List Char, (dropPrefixCI pat (xs ++ stop :: ys)).isSome = true →
      (dropPrefixCI pat xs).isSome = true := by
  induction pat with
  | nil => intro xs ys _; rfl
  | cons p ps ih =>
    intro xs ys h
    cases xs with
    | nil =>
      rw [List.nil_append, dropPrefixCI_cons_ne p stop ps ys
        (hstop p (List.mem_cons_self p ps))] at h
      cases h
    | cons x xs2 =>
      rw [List.cons_append] at h
      simp only [dropPrefixCI] at h ⊢
      by_cases hx : (p.toLower == x.toLower) = true
      · rw [if_pos hx] at h ⊢
        exact ih (fun k hk => hstop k (List.mem_cons_of_mem p hk)) xs2 ys h
      · rw [if_neg hx] at h
        cases h

theorem dropPrefixExact_append (pat r : List Char) :
    dropPrefixExact pat (pat ++ r) = some r := by
  induction pat with
  | nil => rfl
  | cons p ps ih =>
    simp only [List.cons_append, dropPrefixExact]
    rw [if_pos (by simp)]
    exact ih

theorem dropPrefixExact_imp_CI (pat cs : List Char)
    (h : (dropPrefixExact pat cs).isSome = true) :
    (dropPrefixCI pat cs).isSome = true := by
  induction pat generalizing cs with
  | nil => rfl
  | cons p ps ih =>
    cases cs with
    | nil => cases h
    | cons c cs2 =>
      simp only [dropPrefixExact] at h
      simp only [dropPrefixCI]
      by_cases hx : (p == c) = true
      · rw [if_pos hx] at h
        have hc : p = c := by simpa using hx
        rw [if_pos (by simp [hc])]
        exact ih cs2 h
      · rw [if_neg hx] at h
        cases h

theorem hasInfixCI_cons (pat : List Char) (c : Char) (cs : List Char) :
    hasInfixCI pat (c :: cs) = (hasPrefixCI pat (c :: cs) || hasInfixCI pat cs) := by
  simp [hasInfixCI, List.tails]

theorem hasInfixCI_of_hasPrefixCI (pat cs : List Char)
    (h : hasPrefixCI pat cs = true) : hasInfixCI pat cs = true := by
  cases cs with
  | nil => simpa [hasInfixCI] using h
  | cons c cs2 =>
    rw [hasInfixCI_cons, h]
    rfl

theorem colorAt_space (color : String)
    (hcolor : color = "red" ∨ color = "orange" ∨ color = "green") :
    colorAt ((' ' :: color.data).dropWhile isPySpace) = some color := by
  rcases hcolor with rfl | rfl | rfl <;> decide

theorem sevKey_no_newline : ∀ k ∈ sevKey, k.toLower ≠ Char.toLower (Char.ofNat 10) := by
  decide

theorem findSeverity_cons_some (c : Char) (cs : List Char) (s : String)
    (h : severityAt (c :: cs) = some s) : findSeverity (c :: cs) = some s := by
  simp only [findSeverity]
  rw [h]

theorem findSeverity_cons_none (c : Char) (cs : List Char)
    (h : severityAt (c :: cs) = none) : findSeverity (c :: cs) = findSeverity cs := by
  simp only [findSeverity]
  rw [h]

theorem severityAt_drop_some (cs rest : List Char)
    (h : dropPrefixCI sevKey cs = some rest) :
    severityAt cs = colorAt (rest.dropWhile isPySpace) := by
  unfold severityAt
  rw [h]

theorem severityAt_drop_none (cs : List Char) (h : dropPrefixCI sevKey cs = none) :
    severityAt cs = none := by
  unfold severityAt
  rw [h]

theorem findSeverity_append_marker (pre kv : List Char) (color : String)
    (hcolor : color = "red" ∨ color = "orange" ∨ color = "green")
    (hkv : kv.map Char.toLower = sevKey.map Char.toLower)
    (hpre : hasInfixCI sevKey pre = false) :
    findSeverity (pre ++ Char.ofNat 10 :: (kv ++ ' ' :: color.data)) = some color := by
  induction pre with
  | nil =>
    rw [List.nil_append]
    have h1 : severityAt (Char.ofNat 10 :: (kv ++ ' ' :: color.data)) = none := by
      apply severityAt_drop_none
      unfold sevKey
      exact dropPrefixCI_cons_ne _ _ _ _ (by decide)
    rw [findSeverity_cons_none _ _ h1]
    cases kv with
    | nil => simp [sevKey] at hkv
    | cons k ks =>
      have hdp := dropPrefixCI_append sevKey (k :: ks) (' ' :: color.data) hkv
      rw [List.cons_append] at hdp
      have h2 : severityAt (k :: (ks ++ ' ' :: color.data)) = some color := by
        rw [severityAt_drop_some _ _ hdp]
        exact colorAt_space color hcolor
      exact findSeverity_cons_some _ _ _ h2
  | cons c pre2 ih =>
    rw [hasInfixCI_cons] at hpre
    have hp1 : hasPrefixCI sevKey (c :: pre2) = false := by
      cases hb : hasPrefixCI sevKey (c :: pre2)
      · rfl
      · rw [hb] at hpre
        cases hpre
    have hp2 : hasInfixCI sevKey pre2 = false := by
      cases hb : hasInfixCI sevKey pre2
      · rfl
      · rw [hb, Bool.or_true] at hpre
        cases hpre
    rw [List.cons_append]
    have h1 : severityAt (c :: (pre2 ++ Char.ofNat 10 :: (kv ++ ' ' :: color.data)))
        = none := by
      cases hdp : dropPrefixCI sevKey
          (c :: (pre2 ++ Char.ofNat 10 :: (kv ++ ' ' :: color.data))) with
      | some rest =>
        exfalso
        have hsome : (dropPrefixCI sevKey
            ((c :: pre2) ++ Char.ofNat 10 :: (kv ++ ' ' :: color.data))).isSome = true := by
          rw [List.cons_append, hdp]
          rfl
        have hps := dropPrefixCI_stop sevKey (Char.ofNat 10) sevKey_no_newline
          (c :: pre2) (kv ++ ' ' :: color.data) hsome
        rw [show (dropPrefixCI sevKey (c :: pre2)).isSome
            = hasPrefixCI sevKey (c :: pre2) from rfl, hp1] at hps
        cases hps
      | none => exact severityAt_drop_none _ hdp
    rw [findSeverity_cons_none _ _ h1]
    exact ih hp2

theorem stripSeverityAux_nil (fuel : Nat) : stripSeverityAux fuel [] = [] := by
  cases fuel <;> rfl

theorem colorExact_eval (color : String)
    (hcolor : color = "red" ∨ color = "orange" ∨ color = "green") :
    colorExactAt color.data = some [] := by
  rcases hcolor with rfl | rfl | rfl <;> decide

theorem stripMatch_of_dropExact_none (cs : List Char)
    (h : dropPrefixExact sevKey cs = none) : stripMatchAfterNewline cs = none := by
  unfold stripMatchAfterNewline
  rw [h]

theorem stripMatch_marker (color : String)
    (hcolor : color = "red" ∨ color = "orange" ∨ color = "green") :
    stripMatchAfterNewline (sevKey ++ ' ' :: color.data) = some [] := by
  unfold stripMatchAfterNewline
  rw [dropPrefixExact_append sevKey (' ' :: color.data)]
  have hdw : (' ' :: color.data).dropWhile isPySpace = color.data := by
    rcases hcolor with rfl | rfl | rfl <;> decide
  simp [hdw, colorExact_eval color hcolor]

theorem stripMatch_none_of_noKey (xs ys : List Char)
    (h : hasInfixCI sevKey xs = false) :
    stripMatchAfterNewline (xs ++ Char.ofNat 10 :: ys) = none := by
  cases hde : dropPrefixExact sevKey (xs ++ Char.ofNat 10 :: ys) with
  | none => exact stripMatch_of_dropExact_none _ hde
  | some r =>
    exfalso
    have hci := dropPrefixExact_imp_CI sevKey (xs ++ Char.ofNat 10 :: ys)
      (by rw [hde]; rfl)
    have hp := dropPrefixCI_stop sevKey (Char.ofNat 10) sevKey_no_newline xs ys hci
    have hinf := hasInfixCI_of_hasPrefixCI sevKey xs hp
    rw [hinf] at h
    cases h

theorem stripAux_newline_some (f : Nat) (cs rest : List Char)
    (h : stripMatchAfterNewline cs = some rest) :
    stripSeverityAux (f + 1) (Char.ofNat 10 :: cs) = stripSeverityAux f rest := by
  simp only [stripSeverityAux]
  rw [if_pos (by decide), h]

theorem stripAux_newline_none (f : Nat) (cs : List Char)
    (h : stripMatchAfterNewline cs = none) :
    stripSeverityAux (f + 1) (Char.ofNat 10 :: cs)
      = Char.ofNat 10 :: stripSeverityAux f cs := by
  simp only [stripSeverityAux]
  rw [if_pos (by decide), h]

theorem stripAux_other (f : Nat) (c : Char) (cs : List Char)
    (h : (c == Char.ofNat 10) = false) :
    stripSeverityAux (f + 1) (c :: cs) = c :: stripSeverityAux f cs := by
  simp only [stripSeverityAux]
  rw [if_neg (by simp [h])]

theorem stripSeverityAux_marker (pre : List Char) (color : String)
    (hcolor : color = "red" ∨ color = "orange" ∨ color = "green")
    (hpre : hasInfixCI sevKey pre = false) :
    ∀ fuel : Nat, (pre ++ Char.ofNat 10 :: (sevKey ++ ' ' :: color.data)).length ≤ fuel →
      stripSeverityAux fuel (pre ++ Char.ofNat 10 :: (sevKey ++ ' ' :: color.data)) = pre := by
  induction pre with
  | nil =>
    intro fuel hfuel
    rw [List.nil_append] at hfuel ⊢
    cases fuel with
    | zero => simp at hfuel
    | succ f =>
      rw [stripAux_newline_some f _ [] (stripMatch_marker color hcolor)]
      exact stripSeverityAux_nil f
  | cons c pre2 ih =>
    intro fuel hfuel
    rw [hasInfixCI_cons] at hpre
    have hp2 : hasInfixCI sevKey pre2 = false := by
      cases hb : hasInfixCI sevKey pre2
      · rfl
      · rw [hb, Bool.or_true] at hpre
        cases hpre
    cases fuel with
    | zero =>
      rw [List.cons_append, List.length_cons] at hfuel
      simp at hfuel
    | succ f =>
      rw [List.cons_append]
      have hrec : stripSeverityAux f (pre2 ++ Char.ofNat 10 :: (sevKey ++ ' ' :: color.data))
          = pre2 := by
        apply ih hp2
        rw [List.cons_append, List.length_cons] at hfuel
        omega
      by_cases hc : (c == Char.ofNat 10) = true
      · have hcn : c = Char.ofNat 10 := by simpa using hc
        subst hcn
        rw [stripAux_newline_none f _ (stripMatch_none_of_noKey pre2 _ hp2), hrec]
      · rw [stripAux_other f c _ (by simpa using hc), hrec]

theorem stripSeverity_marker (pre : List Char) (color : String)
    (hcolor : color = "red" ∨ color = "orange" ∨ color = "green")
    (hpre : hasInfixCI sevKey pre = false) :
    stripSeverity (pre ++ Char.ofNat 10 :: (sevKey ++ ' ' :: color.data)) = pre :=
  stripSeverityAux_marker pre color hcolor hpre _ (le_refl _)

/- ### Lemmas: suggestion aggregation -/

theorem pyDedup_nodup (l : List String) : (pyDedup l).Nodup :=
  setUnion_nodup [] l List.nodup_nil

theorem collectTop3_nodup (ranked : List String) : (collectTop3 ranked).Nodup := by
  unfold collectTop3
  have haux : ∀ (l acc : List String), acc.Nodup →
      (l.foldl (fun acc d =>
        match diseaseSuggestionsKB.find? (fun p => p.1 == d) with
        | some p => setUnion acc p.2
        | none => acc) acc).Nodup := by
    intro l
    induction l with
    | nil => exact fun acc h => h
    | cons d ds ih =>
      intro acc h
      rw [List.foldl_cons]
      cases hf : diseaseSuggestionsKB.find? (fun p => p.1 == d) with
      | some p => exact ih _ (setUnion_nodup _ _ h)
      | none => exact ih _ h
  exact haux _ [] List.nodup_nil

theorem finalSuggestions_nodup (ranked : List String) :
    (finalSuggestions ranked).Nodup := by
  simp only [finalSuggestions]
  by_cases h : (collectTop3 ranked).length < 5
  · rw [if_pos h]
    exact (List.take_sublist 5 _).nodup
      (setUnion_nodup _ _ (collectTop3_nodup ranked))
  · rw [if_neg h]
    exact (List.take_sublist 5 _).nodup (collectTop3_nodup ranked)

theorem finalSuggestions_len (ranked : List String) :
    (finalSuggestions ranked).length ≤ 5 := by
  simp only [finalSuggestions]
  by_cases h : (collectTop3 ranked).length < 5
  · rw [if_pos h]
    exact List.length_take_le 5 _
  · rw [if_neg h]
    exact List.length_take_le 5 _

/- ### Lemmas: the delegated disease-entry fold -/

theorem processStep_fst (st : List (Nat × String × ℚ) × DB) (e : Option String × Option ℚ) :
    ∃ u, (processStep st e).1 = st.1 ++ u := by
  simp only [processStep]
  cases hf : findByName st.2 (e.1.getD "") with
  | some r => exact ⟨_, rfl⟩
  | none =>
    by_cases hn : e.1.getD "" ≠ ""
    · rw [if_pos hn]
      exact ⟨_, rfl⟩
    · rw [if_neg hn]
      exact ⟨[], (List.append_nil _).symm⟩

theorem processStep_rows (st : List (Nat × String × ℚ) × DB) (e : Option String × Option ℚ) :
    ∃ u, (processStep st e).2.rows = st.2.rows ++ u := by
  simp only [processStep]
  cases hf : findByName st.2 (e.1.getD "") with
  | some r => exact ⟨[], (List.append_nil _).symm⟩
  | none =>
    by_cases hn : e.1.getD "" ≠ ""
    · rw [if_pos hn]
      exact ⟨_, rfl⟩
    · rw [if_neg hn]
      exact ⟨[], (List.append_nil _).symm⟩

theorem processAll_fst_append (entries : List (Option String × Option ℚ))
    (st : List (Nat × String × ℚ) × DB) :
    ∃ t, (entries.foldl processStep st).1 = st.1 ++ t := by
  induction entries generalizing st with
  | nil => exact ⟨[], (List.append_nil _).symm⟩
  | cons e es ih =>
    rw [List.foldl_cons]
    obtain ⟨u, hu⟩ := processStep_fst st e
    obtain ⟨t, ht⟩ := ih (processStep st e)
    exact ⟨u ++ t, by rw [ht, hu, List.append_assoc]⟩

theorem processAll_rows_append (entries : List (Option String × Option ℚ))
    (st : List (Nat × String × ℚ) × DB) :
    ∃ t, (entries.foldl processStep st).2.rows = st.2.rows ++ t := by
  induction entries generalizing st with
  | nil => exact ⟨[], (List.append_nil _).symm⟩
  | cons e es ih =>
    rw [List.foldl_cons]
    obtain ⟨u, hu⟩ := processStep_rows st e
    obtain ⟨t, ht⟩ := ih (processStep st e)
    exact ⟨u ++ t, by rw [ht, hu, List.append_assoc]⟩

theorem findByName_mono (db : DB) (rows2 : List DiseaseRow) (n : String)
    (h : (findByName db n).isSome = true) :
    (findByName ⟨db.rows ++ rows2, db.nextId⟩ n).isSome = true := by
  unfold findByName at h ⊢
  rw [List.find?_append]
  cases hf : db.rows.find? (fun r => r.name == n) with
  | some r => rfl
  | none =>
    rw [hf] at h
    cases h

theorem findByName_isSome_of_rows (db db2 : DB) (n : String)
    (hrows : ∃ t, db2.rows = db.rows ++ t)
    (h : (findByName db n).isSome = true) :
    (findByName db2 n).isSome = true := by
  obtain ⟨t, ht⟩ := hrows
  unfold findByName at h ⊢
  rw [ht, List.find?_append]
  cases hf : db.rows.find? (fun r => r.name == n) with
  | some r => rfl
  | none =>
    rw [hf] at h
    cases h

theorem processStep_empty_name (st : List (Nat × String × ℚ) × DB)
    (e : Option String × Option ℚ) (hname : e.1.getD "" = "")
    (hdb : findByName st.2 "" = none) : processStep st e = st := by
  simp only [processStep]
  rw [hname, hdb]
  simp

theorem processAll_empty_skipped (entries : List (Option String × Option ℚ))
    (st : List (Nat × String × ℚ) × DB) (hdb : findByName st.2 "" = none) :
    (∀ e ∈ (entries.foldl processStep st).1, e ∈ st.1 ∨ e.2.1 ≠ "")
      ∧ findByName (entries.foldl processStep st).2 "" = none
      ∧ (∀ r ∈ (entries.foldl processStep st).2.rows, r ∈ st.2.rows ∨ r.name ≠ "") := by
  induction entries generalizing st with
  | nil => exact ⟨fun e he => Or.inl he, hdb, fun r hr => Or.inl hr⟩
  | cons e es ih =>
    rw [List.foldl_cons]
    by_cases hname : e.1.getD "" = ""
    · rw [processStep_empty_name st e hname hdb]
      exact ih st hdb
    · have hstep : (processStep st e).1 = st.1 ++ [((processStep st e).1.getLast?.getD (0, "", 0))]
          ∨ True := Or.inr trivial
      -- analyse the two productive branches of processStep
      simp only [processStep]
      cases hf : findByName st.2 (e.1.getD "") with
      | some r =>
        obtain ⟨ha, hb, hc⟩ := ih (st.1 ++ [(r.id, e.1.getD "", e.2.getD 50)], st.2) hdb
        refine ⟨?_, hb, hc⟩
        intro x hx
        rcases ha x hx with hin | hne
        · rcases List.mem_append.mp hin with h1 | h1
          · exact Or.inl h1
          · rcases List.mem_singleton.mp h1 with rfl
            exact Or.inr hname
        · exact Or.inr hne
      | none =>
        rw [if_pos hname]
        have hdb2 : findByName
            (⟨st.2.rows ++ [⟨st.2.nextId, e.1.getD "", delegatedDescription (e.1.getD "")⟩],
              st.2.nextId + 1⟩ : DB) "" = none := by
          unfold findByName at hdb ⊢
          rw [List.find?_append, hdb]
          simp [hname]
        obtain ⟨ha, hb, hc⟩ := ih
          (st.1 ++ [(st.2.nextId, e.1.getD "", e.2.getD 50)],
           ⟨st.2.rows ++ [⟨st.2.nextId, e.1.getD "", delegatedDescription (e.1.getD "")⟩],
            st.2.nextId + 1⟩) hdb2
        refine ⟨?_, hb, ?_⟩
        · intro x hx
          rcases ha x hx with hin | hne
          · rcases List.mem_append.mp hin with h1 | h1
            · exact Or.inl h1
            · rcases List.mem_singleton.mp h1 with rfl
              exact Or.inr hname
          · exact Or.inr hne
        · intro r hr
          rcases hc r hr with hin | hne
          · rcases List.mem_append.mp hin with h1 | h1
            · exact Or.inl h1
            · rcases List.mem_singleton.mp h1 with rfl
              exact Or.inr hname
          · exact Or.inr hne

theorem processAll_includes (entries : List (Option String × Option ℚ))
    (st : List (Nat × String × ℚ) × DB) :
    ∀ e ∈ entries, e.1.getD "" ≠ "" →
      ∃ x ∈ (entries.foldl processStep st).1,
        x.2.1 = e.1.getD "" ∧ x.2.2 = e.2.getD 50 := by
  induction entries generalizing st with
  | nil => intro e he; cases he
  | cons e0 es ih =>
    intro e he hne
    rw [List.foldl_cons]
    rcases List.mem_cons.mp he with rfl | hes
    · have hx : ∃ n, (n, e.1.getD "", e.2.getD 50) ∈ (processStep st e).1 := by
        simp only [processStep]
        cases hf : findByName st.2 (e.1.getD "") with
        | some r =>
          exact ⟨r.id, List.mem_append_right _ (List.mem_singleton_self _)⟩
        | none =>
          rw [if_pos hne]
          exact ⟨st.2.nextId, List.mem_append_right _ (List.mem_singleton_self _)⟩
      obtain ⟨n, hn⟩ := hx
      obtain ⟨t, ht⟩ := processAll_fst_append es (processStep st e)
      exact ⟨(n, e.1.getD "", e.2.getD 50), by rw [ht]; exact List.mem_append_left _ hn,
        rfl, rfl⟩
    · exact ih (processStep st e0) e hes hne

theorem processAll_row_created (entries : List (Option String × Option ℚ))
    (st : List (Nat × String × ℚ) × DB) :
    ∀ e ∈ entries, e.1.getD "" ≠ "" →
      (findByName (entries.foldl processStep st).2 (e.1.getD "")).isSome = true := by
  induction entries generalizing st with
  | nil => intro e he; cases he
  | cons e0 es ih =>
    intro e he hne
    rw [List.foldl_cons]
    rcases List.mem_cons.mp he with rfl | hes
    · have hstep : (findByName (processStep st e).2 (e.1.getD "")).isSome = true := by
        simp only [processStep]
        cases hf : findByName st.2 (e.1.getD "") with
        | some r =>
          rw [hf]
          rfl
        | none =>
          rw [if_pos hne]
          unfold findByName at hf ⊢
          rw [List.find?_append, hf]
          simp
      obtain ⟨t, ht⟩ := processAll_rows_append es (processStep st e)
      exact findByName_isSome_of_rows _ _ _ ⟨t, ht⟩ hstep
    · exact ih (processStep st e0) e hes hne

/- ### Concrete evaluations of the fallback pipeline -/

set_option maxRecDepth 100000 in
theorem dsEval : diseaseSymptoms =
    [("편두통", ["두통", "메스꺼움"]), ("긴장성 두통", ["두통"]), ("군발성 두통", ["두통"]),
     ("위염", ["복통", "메스꺼움"]), ("장염", ["복통", "설사"]),
     ("과민성 대장 증후군", ["복통", "설사"]), ("감기", ["열", "기침", "발열", "콧물"]),
     ("독감", ["열", "근육통", "발열"]), ("코로나19", ["열", "기침"]),
     ("기관지염", ["기침"]), ("빈혈", ["어지러움", "피로"]), ("현기증", ["어지러움"]),
     ("저혈압", ["어지러움"]), ("만성피로증후군", ["피로"]),
     ("갑상선 기능 저하증", ["피로"]), ("멀미", ["메스꺼움"]), ("식중독", ["설사"]),
     ("근육염", ["근육통"]), ("섬유근육통", ["근육통"]), ("폐렴", ["발열"]),
     ("인두염", ["인후통"]), ("편도염", ["인후통"]), ("후두염", ["인후통"]),
     ("비염", ["콧물"]), ("알레르기", ["콧물", "발진"]), ("습진", ["발진"]),
     ("수두", ["발진"]), ("관절염", ["관절통"]), ("류마티스 관절염", ["관절통"]),
     ("통풍", ["관절통"])] := by decide

set_option maxRecDepth 100000 in
theorem detEvalT1 : detectedSymptomsOf (toLowerStr "두통과 복통과 메스꺼움이 있어요")
    = ["두통", "복통", "메스꺼움"] := by decide

set_option maxRecDepth 100000 in
theorem menEvalT1 : mentionedDiseasesOf (toLowerStr "두통과 복통과 메스꺼움이 있어요") = [] := by
  decide

set_option maxRecDepth 100000 in
theorem probsEvalT1 : probabilitiesOf ["두통", "복통", "메스꺼움"] []
    = [("편두통", 95), ("긴장성 두통", 95), ("군발성 두통", 95), ("위염", 95),
       ("장염", 50), ("과민성 대장 증후군", 50), ("멀미", 95)] := by
  have hposs : possibleDiseasesOf ["두통", "복통", "메스꺼움"] []
      = ["편두통", "긴장성 두통", "군발성 두통", "위염", "장염", "과민성 대장 증후군", "멀미"] := by
    decide
  have hcnt : diseaseCountsOf ["두통", "복통", "메스꺼움"] []
      = [("편두통", 2), ("긴장성 두통", 1), ("군발성 두통", 1), ("위염", 2), ("장염", 1),
         ("과민성 대장 증후군", 1), ("멀미", 1)] := by decide
  unfold probabilitiesOf
  rw [hposs, hcnt]
  norm_num +decide [rawProbability, getCount, lookupList, dsEval, pyRound1, roundHalfEven]

set_option maxRecDepth 100000 in
theorem rankedEvalT1 :
    rankDiseases
      [("편두통", 95), ("긴장성 두통", 95), ("군발성 두통", 95), ("위염", 95),
       ("장염", 50), ("과민성 대장 증후군", 50), ("멀미", 95)]
      ["편두통", "긴장성 두통", "군발성 두통", "위염", "장염", "과민성 대장 증후군", "멀미"]
    = ["편두통", "긴장성 두통", "군발성 두통", "위염", "멀미", "장염", "과민성 대장 증후군"] := by
  norm_num +decide [rankDiseases, insertRanked, probGet]

set_option maxRecDepth 100000 in
theorem rankedT1 : rankedDiseasesOf (toLowerStr "두통과 복통과 메스꺼움이 있어요")
    = ["편두통", "긴장성 두통", "군발성 두통", "위염", "멀미", "장염", "과민성 대장 증후군"] := by
  have hposs : possibleDiseasesOf ["두통", "복통", "메스꺼움"] []
      = ["편두통", "긴장성 두통", "군발성 두통", "위염", "장염", "과민성 대장 증후군", "멀미"] := by
    decide
  unfold rankedDiseasesOf
  rw [detEvalT1, menEvalT1, hposs, probsEvalT1, rankedEvalT1]

set_option maxRecDepth 100000 in
theorem suggEvalT1 : (fallbackAnalyze "두통과 복통과 메스꺼움이 있어요" ⟨[], 0⟩).1.suggestions
    = ["충분한 수면 취하기", "스트레스 관리하기", "정기적인 운동하기", "목과 어깨 스트레칭",
       "스트레스 관리"] := by
  simp only [fallbackAnalyze, detEvalT1, menEvalT1, rankedT1]
  decide

set_option maxRecDepth 100000 in
theorem detEvalT2 : detectedSymptomsOf (toLowerStr "의사가 감기라고 했어요")
    = ["열", "기침", "발열", "콧물"] := by decide

set_option maxRecDepth 100000 in
theorem menEvalT2 : mentionedDiseasesOf (toLowerStr "의사가 감기라고 했어요") = ["감기"] := by
  decide

set_option maxRecDepth 100000 in
theorem probsEvalT2 : probabilitiesOf ["열", "기침", "발열", "콧물"] ["감기"]
    = [("감기", 95), ("독감", 667/10), ("코로나19", 95), ("기관지염", 95),
       ("폐렴", 95), ("비염", 95), ("알레르기", 50)] := by
  have hposs : possibleDiseasesOf ["열", "기침", "발열", "콧물"] ["감기"]
      = ["감기", "독감", "코로나19", "기관지염", "폐렴", "비염", "알레르기"] := by decide
  have hcnt : diseaseCountsOf ["열", "기침", "발열", "콧물"] ["감기"]
      = [("감기", 7), ("독감", 2), ("코로나19", 2), ("기관지염", 1), ("폐렴", 1),
         ("비염", 1), ("알레르기", 1)] := by decide
  unfold probabilitiesOf
  rw [hposs, hcnt]
  norm_num +decide [rawProbability, getCount, lookupList, dsEval, pyRound1, roundHalfEven]
  norm_num [Int.fract]

set_option maxRecDepth 100000 in
theorem rankedEvalT2 :
    rankDiseases
      [("감기", 95), ("독감", 667/10), ("코로나19", 95), ("기관지염", 95),
       ("폐렴", 95), ("비염", 95), ("알레르기", 50)]
      ["감기", "독감", "코로나19", "기관지염", "폐렴", "비염", "알레르기"]
    = ["감기", "코로나19", "기관지염", "폐렴", "비염", "독감", "알레르기"] := by
  norm_num +decide [rankDiseases, insertRanked, probGet]

set_option maxRecDepth 100000 in
theorem rankedT2 : rankedDiseasesOf (toLowerStr "의사가 감기라고 했어요")
    = ["감기", "코로나19", "기관지염", "폐렴", "비염", "독감", "알레르기"] := by
  have hposs : possibleDiseasesOf ["열", "기침", "발열", "콧물"] ["감기"]
      = ["감기", "독감", "코로나19", "기관지염", "폐렴", "비염", "알레르기"] := by decide
  unfold rankedDiseasesOf
  rw [detEvalT2, menEvalT2, hposs, probsEvalT2, rankedEvalT2]

set_option maxRecDepth 100000 in
theorem disEvalT2 : (fallbackAnalyze "의사가 감기라고 했어요" ⟨[], 0⟩).1.diseases
    = [(0, "감기", 95), (1, "코로나19", 95), (2, "기관지염", 95), (3, "폐렴", 95),
       (4, "비염", 95), (5, "독감", 667/10), (6, "알레르기", 50)] := by
  simp only [fallbackAnalyze, detEvalT2, menEvalT2, rankedT2, probsEvalT2]
  norm_num +decide [buildEntries, findOrCreate, findByName, probGet]

set_option maxRecDepth 100000 in
theorem symEvalT2 : (fallbackAnalyze "의사가 감기라고 했어요" ⟨[], 0⟩).1.symptoms
    = ["열", "기침", "발열", "콧물"] := by
  simp only [fallbackAnalyze, detEvalT2, menEvalT2]
  decide

/- ### The claims -/

/-- C1 (corrected), counterexample: in the local-fallback report strategy a
numeric `painIntensity` of 8 does *not* force severity `red`; the fallback
branch returns the literal `green` because the override sits inside the
`try` block (lines 623-635 vs 643-650). -/
theorem C1_pain_override_counterexample :
    (generateConversationReport none ⟨[], [], [], some (PainValue.num 8)⟩
        ⟨"", "", "", []⟩ "now").severityLevel = "green"
      ∧ ("green" : String) ≠ "red" := by
  exact ⟨rfl, by decide⟩

/-- C1 (amended): when the delegated narrative strategy succeeds, a numeric
`painIntensity` override determines the final severity (≥ 7 red, ≥ 4 orange,
otherwise green) regardless of the parsed or default marker; when the report
falls back to the local template, the severity is unconditionally `green`. -/
theorem C1_amended_pain_override (rep : String) (a : AnalysisData) (user : UserProfile)
    (now : String) (q : ℚ) (hq : a.painIntensity = some (PainValue.num q)) :
    ((generateConversationReport (some rep) a user now).severityLevel
        = if 7 ≤ q then "red" else if 4 ≤ q then "orange" else "green")
      ∧ ∀ (a2 : AnalysisData) (u2 : UserProfile) (n2 : String),
          (generateConversationReport none a2 u2 n2).severityLevel = "green" := by
  constructor
  · show applyPainOverride a.painIntensity
        ((findSeverity rep.data).getD "green")
        = if 7 ≤ q then "red" else if 4 ≤ q then "orange" else "green"
    rw [hq]
    rfl
  · intro a2 u2 n2
    rfl

/-- Witness for C1 (amended): delegated narrative parsed as `green`,
`painIntensity = 8`, final severity `red` — the override wins. -/
theorem C1_amended_pain_override_witness :
    (generateConversationReport (some "SEVERITY_LEVEL: green")
        ⟨[], [], [], some (PainValue.num 8)⟩ ⟨"", "", "", []⟩ "now").severityLevel
      = "red" := by
  have h := C1_amended_pain_override "SEVERITY_LEVEL: green"
    ⟨[], [], [], some (PainValue.num 8)⟩ ⟨"", "", "", []⟩ "now" 8 rfl
  rw [h.1, if_pos (by norm_num)]

/-- C2 (confirmed): in the local rule-based scorer the probability of every
candidate disease equals the claim's formula: for directly mentioned
diseases `min(95, 80 + (matchCount - 3) * 5)` with `matchCount` the
symptom-match count plus the +3 boost, otherwise
`min(95, max(50, matchCount / totalSymptoms * 100))` (default 50.0 when the
disease has no knowledge-base symptoms), all rounded to one decimal. -/
theorem C2_scorer_probability_formula (detected mentioned : List String) (d : String)
    (hm : mentioned.Nodup) (hd : d ∈ possibleDiseasesOf detected mentioned) :
    probGet (probabilitiesOf detected mentioned) d 50
      = claimProbability (mentioned.contains d) (claimMatchCount detected mentioned d)
          (totalSymptomsFor d) :=
  scorerProbability_eq detected mentioned d hm hd

/-- Witness for C2 at a concrete scorer input. -/
theorem C2_scorer_probability_formula_witness :
    ([] : List String).Nodup
      ∧ "편두통" ∈ possibleDiseasesOf ["두통"] []
      ∧ probGet (probabilitiesOf ["두통"] []) "편두통" 50
          = claimProbability (([] : List String).contains "편두통")
              (claimMatchCount ["두통"] [] "편두통") (totalSymptomsFor "편두통") :=
  ⟨List.nodup_nil, by decide,
    C2_scorer_probability_formula ["두통"] [] "편두통" List.nodup_nil (by decide)⟩

/-- C3 (confirmed): every probability in the fallback analyzer's
`diseases_with_probabilities` lies in [80, 95] when the disease is
directly mentioned in the text and in [50, 95] otherwise. -/
theorem C3_probability_bounds (text : String) (db : DB) (n : Nat) (d : String) (p : ℚ)
    (hmem : (n, d, p) ∈ (fallbackAnalyze text db).1.diseases) :
    (d ∈ mentionedDiseasesOf (toLowerStr text) → (80 : ℚ) ≤ p ∧ p ≤ 95)
      ∧ (d ∉ mentionedDiseasesOf (toLowerStr text) → (50 : ℚ) ≤ p ∧ p ≤ 95) := by
  simp only [fallbackAnalyze] at hmem
  by_cases hempty : ((detectedSymptomsOf (toLowerStr text)).isEmpty
      && (mentionedDiseasesOf (toLowerStr text)).isEmpty) = true
  · rw [if_pos hempty] at hmem
    cases hmem
  · rw [if_neg hempty] at hmem
    rcases buildEntries_mem _ _ _ _ hmem with hin | ⟨d2, hd2, h1, h2⟩
    · cases hin
    · have h1x : d = d2 := h1
      have h2x : p = probGet (probabilitiesOf (detectedSymptomsOf (toLowerStr text))
          (mentionedDiseasesOf (toLowerStr text))) d2 50 := h2
      subst h1x
      subst h2x
      unfold rankedDiseasesOf at hd2
      rw [mem_rankDiseases] at hd2
      exact scorerProbability_bounds (detectedSymptomsOf (toLowerStr text))
        (mentionedDiseasesOf (toLowerStr text)) d
        (mentionedDiseasesOf_nodup (toLowerStr text)) hd2

/-- Witness for C3 at a concrete member of a concrete analysis. -/
theorem C3_probability_bounds_witness :
    (0, "감기", (95 : ℚ)) ∈ (fallbackAnalyze "의사가 감기라고 했어요" ⟨[], 0⟩).1.diseases
      ∧ ((80 : ℚ) ≤ 95 ∧ (95 : ℚ) ≤ 95) := by
  have hmem : ((0, "감기", (95 : ℚ)))
      ∈ (fallbackAnalyze "의사가 감기라고 했어요" ⟨[], 0⟩).1.diseases := by
    rw [disEvalT2]
    exact List.mem_cons_self _ _
  refine ⟨hmem, ?_⟩
  exact (C3_probability_bounds "의사가 감기라고 했어요" ⟨[], 0⟩ 0 "감기" 95 hmem).1
    (by decide)

/-- C4 (corrected), counterexample: a narrative consisting of the single
line `SEVERITY_LEVEL: red` is parsed (severity `red`), but the marker is
*not* stripped from the content: the substitution pattern requires a
preceding newline (and exact case), so the content is returned unchanged. -/
theorem C4_marker_counterexample :
    (generateConversationReport (some "SEVERITY_LEVEL: red") ⟨[], [], [], none⟩
        ⟨"", "", "", []⟩ "now").severityLevel = "red"
      ∧ (generateConversationReport (some "SEVERITY_LEVEL: red") ⟨[], [], [], none⟩
          ⟨"", "", "", []⟩ "now").content = "SEVERITY_LEVEL: red" := by
  constructor
  · decide
  · decide

/-- C4 (amended): a `SEVERITY_LEVEL: (red|orange|green)` marker is parsed
case-insensitively and used as the severity; the marker is stripped from
the visible content when it appears in canonical form (preceded by a
newline, upper-case key, lower-case color); and when no marker is found
the severity defaults to `green`. -/
theorem C4_amended_severity_marker (pre kv : List Char) (color : String)
    (a : AnalysisData) (user : UserProfile) (now : String)
    (hpain : a.painIntensity = none)
    (hcolor : color = "red" ∨ color = "orange" ∨ color = "green")
    (hkv : kv.map Char.toLower = sevKey.map Char.toLower)
    (hpre : hasInfixCI sevKey pre = false) :
    ((generateConversationReport
        (some (String.mk (pre ++ Char.ofNat 10 :: (kv ++ ' ' :: color.data))))
        a user now).severityLevel = color)
      ∧ (kv = sevKey →
          (generateConversationReport
            (some (String.mk (pre ++ Char.ofNat 10 :: (kv ++ ' ' :: color.data))))
            a user now).content = String.mk pre)
      ∧ (∀ cs : List Char, findSeverity cs = none →
          (generateConversationReport (some (String.mk cs)) a user now).severityLevel
            = "green") := by
  have hfind := findSeverity_append_marker pre kv color hcolor hkv hpre
  refine ⟨?_, ?_, ?_⟩
  · show applyPainOverride a.painIntensity
        ((findSeverity (pre ++ Char.ofNat 10 :: (kv ++ ' ' :: color.data))).getD "green")
        = color
    rw [hpain, hfind]
    rfl
  · intro hkveq
    subst hkveq
    show (if (findSeverity (pre ++ Char.ofNat 10 :: (sevKey ++ ' ' :: color.data))).isSome
        then String.mk (stripSeverity (pre ++ Char.ofNat 10 :: (sevKey ++ ' ' :: color.data)))
        else String.mk (pre ++ Char.ofNat 10 :: (sevKey ++ ' ' :: color.data)))
        = String.mk pre
    rw [hfind]
    simp only [Option.isSome_some, if_true]
    rw [stripSeverity_marker pre color hcolor hpre]
  · intro cs hnone
    show applyPainOverride a.painIntensity ((findSeverity cs).getD "green") = "green"
    rw [hpain, hnone]
    rfl

/-- Witness for C4 (amended) at a concrete narrative. -/
theorem C4_amended_severity_marker_witness :
    ((generateConversationReport
        (some (String.mk ("abc".data ++ Char.ofNat 10 :: (sevKey ++ ' ' :: "red".data))))
        ⟨[], [], [], none⟩ ⟨"", "", "", []⟩ "now").severityLevel = "red")
      ∧ ((generateConversationReport
          (some (String.mk ("abc".data ++ Char.ofNat 10 :: (sevKey ++ ' ' :: "red".data))))
          ⟨[], [], [], none⟩ ⟨"", "", "", []⟩ "now").content = String.mk "abc".data) := by
  have h := C4_amended_severity_marker "abc".data sevKey "red" ⟨[], [], [], none⟩
    ⟨"", "", "", []⟩ "now" rfl (Or.inl rfl) rfl (by decide)
  exact ⟨h.1, h.2.1 rfl⟩

/-- C5 (corrected), counterexample: the delegated path returns duplicated
suggestions unchanged when three or more come back from the collaborator
(the dedup on lines 358-360 only runs when fewer than three were
returned). -/
theorem C5_suggestions_counterexample :
    ¬ ((analyzeConversation [⟨"user", "안녕"⟩]
        (some ⟨[], [], ["a", "a", "a"]⟩) ⟨[], 0⟩).1.suggestions.Nodup) := by
  decide

/-- C5 (amended): every AnalysisResult of the orchestrator has at most 5
suggestions; the suggestions are duplicate-free in the local fallback and
empty-conversation paths, and in the delegated path whenever the
collaborator's own suggestion list is duplicate-free. -/
theorem C5_amended_suggestion_cap (msgs : List Message)
    (delegated : Option DelegatedPayload) (db : DB) :
    (analyzeConversation msgs delegated db).1.suggestions.length ≤ 5
      ∧ ((delegated = none ∨ ∃ p, delegated = some p ∧ p.healthSuggestions.Nodup) →
          (analyzeConversation msgs delegated db).1.suggestions.Nodup) := by
  unfold analyzeConversation
  by_cases hempty : msgs.isEmpty = true
  · rw [if_pos hempty]
    refine ⟨?_, fun _ => generalSuggestions_nodup⟩
    show generalSuggestions.length ≤ 5
    decide
  · rw [if_neg hempty]
    cases delegated with
    | some p =>
      constructor
      · show (delegatedSuggestions p.healthSuggestions).length ≤ 5
        simp only [delegatedSuggestions]
        exact List.length_take_le 5 _
      · intro hnd
        rcases hnd with h | ⟨p2, hp2, hnd⟩
        · cases h
        · have hp : p = p2 := by injection hp2
          subst hp
          show (delegatedSuggestions p.healthSuggestions).Nodup
          simp only [delegatedSuggestions]
          by_cases h3 : p.healthSuggestions.length < 3
          · rw [if_pos h3]
            exact (List.take_sublist 5 _).nodup
              ((List.take_sublist 5 _).nodup (pyDedup_nodup _))
          · rw [if_neg h3]
            exact (List.take_sublist 5 _).nodup hnd
    | none =>
      simp only [fallbackAnalyze]
      by_cases he2 : ((detectedSymptomsOf (toLowerStr (conversationText msgs))).isEmpty
          && (mentionedDiseasesOf (toLowerStr (conversationText msgs))).isEmpty) = true
      · rw [if_pos he2]
        refine ⟨?_, fun _ => generalSuggestions_nodup⟩
        show generalSuggestions.length ≤ 5
        decide
      · rw [if_neg he2]
        exact ⟨finalSuggestions_len _, fun _ => finalSuggestions_nodup _⟩

/-- Witness for C5 (amended) on a concrete fallback-path conversation. -/
theorem C5_amended_suggestion_cap_witness :
    (analyzeConversation [⟨"user", "두통이 있어요"⟩] none ⟨[], 0⟩).1.suggestions.length ≤ 5
      ∧ (analyzeConversation [⟨"user", "두통이 있어요"⟩] none ⟨[], 0⟩).1.suggestions.Nodup := by
  have h := C5_amended_suggestion_cap [⟨"user", "두통이 있어요"⟩] none ⟨[], 0⟩
  exact ⟨h.1, h.2 (Or.inl rfl)⟩

/-- C6 (corrected), counterexample: at the aggregator interface with the
explicit ranked list [편두통, 긴장성 두통, 위염] (a ranking the program can
produce — all three diseases tie at probability 95 for the text
두통과 복통과 메스꺼움이 있어요, and `sorted` may order the ties this way),
the top-3 diseases contribute 9 distinct suggestions while the final list
has only 5 entries, so the original retention clause fails: not every
collected disease-specific suggestion survives.  The refutation is a
cardinality fact (9 collected, 5 kept), so it holds under *every*
iteration order of the source's Python sets, not just the model's. -/
theorem C6_retention_counterexample :
    (collectTop3 ["편두통", "긴장성 두통", "위염"]).Nodup
      ∧ (collectTop3 ["편두통", "긴장성 두통", "위염"]).length = 9
      ∧ (finalSuggestions ["편두통", "긴장성 두통", "위염"]).length = 5
      ∧ ¬ ∀ s ∈ collectTop3 ["편두통", "긴장성 두통", "위염"],
          s ∈ finalSuggestions ["편두통", "긴장성 두통", "위염"] := by
  refine ⟨by decide, by decide, by decide, by decide⟩

/-- C6 (amended): the aggregator collects suggestions only from the top 3
ranked diseases and deduplicates them; when fewer than 5 unique
suggestions are collected the whole generic pool is added and the final
list has exactly 5 entries, each drawn from the collected or generic
suggestions; when 5 or more are collected the final list consists of
exactly 5 of the collected suggestions, so when more than 5 are collected
at least one collected disease-specific suggestion is dropped.  (Which
entries survive the truncation depends on Python's unspecified set
iteration order; every conjunct below is an order-independent content,
duplicate-freedom or cardinality fact, valid for any such order.) -/
theorem C6_amended_suggestion_aggregation (ranked : List String) :
    (∀ s ∈ finalSuggestions ranked, s ∈ collectTop3 ranked ∨ s ∈ generalSuggestions)
      ∧ (finalSuggestions ranked).Nodup
      ∧ (finalSuggestions ranked).length ≤ 5
      ∧ ((collectTop3 ranked).length < 5 → (finalSuggestions ranked).length = 5)
      ∧ (5 ≤ (collectTop3 ranked).length →
          (∀ s ∈ finalSuggestions ranked, s ∈ collectTop3 ranked)
            ∧ (finalSuggestions ranked).length = 5)
      ∧ (5 < (collectTop3 ranked).length →
          ∃ s ∈ collectTop3 ranked, s ∉ finalSuggestions ranked) := by
  refine ⟨?_, finalSuggestions_nodup ranked, finalSuggestions_len ranked, ?_, ?_, ?_⟩
  · intro s hs
    simp only [finalSuggestions] at hs
    by_cases h : (collectTop3 ranked).length < 5
    · rw [if_pos h] at hs
      rcases (mem_setUnion _ _ _).mp (List.mem_of_mem_take hs) with h1 | h1
      · exact Or.inl h1
      · exact Or.inr h1
    · rw [if_neg h] at hs
      exact Or.inl (List.mem_of_mem_take hs)
  · intro h
    simp only [finalSuggestions]
    rw [if_pos h, List.length_take]
    have hsub : generalSuggestions.toFinset
        ⊆ (setUnion (collectTop3 ranked) generalSuggestions).toFinset := by
      intro x hx
      rw [List.mem_toFinset] at hx ⊢
      exact (mem_setUnion _ _ _).mpr (Or.inr hx)
    have hcard : generalSuggestions.toFinset.card = 5 := by decide
    have hle := Finset.card_le_card hsub
    have hlen := List.toFinset_card_le (setUnion (collectTop3 ranked) generalSuggestions)
    omega
  · intro h
    constructor
    · intro s hs
      simp only [finalSuggestions] at hs
      rw [if_neg (not_lt.mpr h)] at hs
      exact List.mem_of_mem_take hs
    · simp only [finalSuggestions]
      rw [if_neg (not_lt.mpr h), List.length_take]
      omega
  · intro h
    have hnd : (collectTop3 ranked).Nodup := collectTop3_nodup ranked
    have hfinal : finalSuggestions ranked = (collectTop3 ranked).take 5 := by
      simp only [finalSuggestions]
      rw [if_neg (not_lt.mpr (le_of_lt h))]
    have hsplit := List.take_append_drop 5 (collectTop3 ranked)
    have hnd2 : ((collectTop3 ranked).take 5 ++ (collectTop3 ranked).drop 5).Nodup := by
      rw [hsplit]
      exact hnd
    rw [List.nodup_append] at hnd2
    have hdroplen : 0 < ((collectTop3 ranked).drop 5).length := by
      rw [List.length_drop]
      omega
    obtain ⟨s, hs⟩ := List.exists_mem_of_length_pos hdroplen
    refine ⟨s, ?_, ?_⟩
    · rw [← hsplit]
      exact List.mem_append_right _ hs
    · rw [hfinal]
      intro hmem
      exact hnd2.2.2 hmem hs

/-- Witness for C6 (amended): the pigeonhole branch at the
counterexample's ranked list — more than 5 collected forces a drop. -/
theorem C6_amended_suggestion_aggregation_witness :
    ∃ s ∈ collectTop3 ["편두통", "긴장성 두통", "위염"],
      s ∉ finalSuggestions ["편두통", "긴장성 두통", "위염"] :=
  (C6_amended_suggestion_aggregation ["편두통", "긴장성 두통", "위염"]).2.2.2.2.2 (by decide)

/-- C7 (confirmed): for a conversation with zero messages the orchestrator
returns, without touching either strategy or the store, the empty result
whose suggestions are exactly the (first 5 = all 5) generic suggestions. -/
theorem C7_empty_conversation (delegated : Option DelegatedPayload) (db : DB) :
    analyzeConversation [] delegated db = (⟨[], [], generalSuggestions⟩, db)
      ∧ generalSuggestions = generalSuggestions.take 5 := by
  constructor
  · rfl
  · decide

/-- C8 (confirmed): for the text "의사가 감기라고 했어요" the fallback
analyzer detects 감기 as directly mentioned, back-fills the symptoms
열, 기침, 발열, 콧물, and scores 감기 with a probability in [80, 95]. -/
theorem C8_direct_mention_scenario :
    "감기" ∈ mentionedDiseasesOf (toLowerStr "의사가 감기라고 했어요")
      ∧ (∀ s ∈ (["열", "기침", "발열", "콧물"] : List String),
          s ∈ (fallbackAnalyze "의사가 감기라고 했어요" ⟨[], 0⟩).1.symptoms)
      ∧ ∃ n p, (n, "감기", p) ∈ (fallbackAnalyze "의사가 감기라고 했어요" ⟨[], 0⟩).1.diseases
          ∧ (80 : ℚ) ≤ p ∧ p ≤ 95 := by
  refine ⟨by decide, ?_, 0, 95, ?_, by decide, by decide⟩
  · rw [symEvalT2]
    decide
  · rw [disEvalT2]
    exact List.mem_cons_self _ _


/-- Witness for C8: the back-filled symptom 열 is indeed among the detected
symptoms of the concrete scenario. -/
theorem C8_direct_mention_scenario_witness :
    "열" ∈ (fallbackAnalyze "의사가 감기라고 했어요" ⟨[], 0⟩).1.symptoms :=
  C8_direct_mention_scenario.2.1 "열" (by decide)

/-- C9 (confirmed): in the delegated analysis path an entry whose name is
missing/empty and matches no stored row is silently dropped (no output
entry, no created row), while every entry with a non-empty name yields an
output entry with its name and probability, its Disease row existing
afterwards. -/
theorem C9_delegated_disease_rows (entries : List (Option String × Option ℚ)) (db : DB)
    (hdb : findByName db "" = none) :
    (∀ e ∈ (processPossibleDiseases entries db).1, e.2.1 ≠ "")
      ∧ (∀ r ∈ (processPossibleDiseases entries db).2.rows, r.name = "" → r ∈ db.rows)
      ∧ (∀ e ∈ entries, e.1.getD "" ≠ "" →
          (∃ x ∈ (processPossibleDiseases entries db).1,
            x.2.1 = e.1.getD "" ∧ x.2.2 = e.2.getD 50)
            ∧ (findByName (processPossibleDiseases entries db).2 (e.1.getD "")).isSome
              = true) := by
  unfold processPossibleDiseases
  obtain ⟨h1, h2, h3⟩ := processAll_empty_skipped entries ([], db) hdb
  refine ⟨?_, ?_, ?_⟩
  · intro e he
    rcases h1 e he with h | h
    · cases h
    · exact h
  · intro r hr hname
    rcases h3 r hr with h | h
    · exact h
    · exact absurd hname h
  · intro e he hne
    exact ⟨processAll_includes entries ([], db) e he hne,
      processAll_row_created entries ([], db) e he hne⟩

/-- Witness for C9 at a concrete delegated response. -/
theorem C9_delegated_disease_rows_witness :
    (∃ x ∈ (processPossibleDiseases [(some "위염", some 70), (none, none)] ⟨[], 0⟩).1,
        x.2.1 = "위염" ∧ x.2.2 = (70 : ℚ))
      ∧ ∀ e ∈ (processPossibleDiseases [(some "위염", some 70), (none, none)] ⟨[], 0⟩).1,
          e.2.1 ≠ "" := by
  have h := C9_delegated_disease_rows [(some "위염", some 70), (none, none)] ⟨[], 0⟩ rfl
  refine ⟨?_, h.1⟩
  have h2 := (h.2.2 (some "위염", some 70) (by decide) (by decide)).1
  simpa using h2

/-- C10 (confirmed): on posting a message, a report is generated iff the
request carries a `request_report` payload or the posted message's
sequence number plus one equals 7. -/
theorem C10_report_trigger (requestReport : Option Unit) (priorSequences : List Nat) :
    reportTriggered requestReport priorSequences = true
      ↔ (requestReport.isSome = true ∨ nextSequence priorSequences + 1 = 7) := by
  unfold reportTriggered
  simp [Bool.or_eq_true, beq_iff_eq]

end Medit
